import Mathlib

/-!
Verification development for `cbpro/order_book.py` (class `OrderBook`).

The order book state is embedded shallowly:
* `_bids` / `_asks` (Python `SortedDict` mapping price to a FIFO list of
  order dicts) become association lists sorted by ascending price key
  (`alist_*` operations mirror `SortedDict.get`, `__setitem__`, `__delitem__`);
* `price_dict` (a Python insertion-ordered `dict` mapping order id to price)
  becomes an association list with replace-in-place / append-at-end update
  (`pd_*` operations);
* `Decimal` prices and sizes become `ℚ` (exact arithmetic, as in the source);
* feed messages become a record of optional fields; a missing-key access
  (`KeyError` / failed `assert` / `NameError`) makes an operation return
  `none`;
* Python's `a or b` fallback on message fields is modelled by `pyOrStr` /
  `pyOrQ`, which skip falsy values (`""`, `0`) exactly as Python does;
* logging (`print`, `pickle.dump`) has no effect on book state and is dropped.
-/

abbrev Price := ℚ
abbrev OrderId := String

/-- A resting order as stored in the book: the dict
`{'id': ..., 'side': ..., 'price': ..., 'size': ...}` built by `add`. -/
structure Order where
  id : OrderId
  side : String
  price : Price
  size : ℚ
deriving DecidableEq, Repr

/-- An inbound websocket message; every field the source ever reads is
optional, `none` meaning the key is absent from the dict. -/
structure Message where
  type' : Option String
  sequence : Option Int
  order_id : Option OrderId
  id : Option OrderId
  side : Option String
  price : Option Price
  size : Option ℚ
  remaining_size : Option ℚ
  maker_order_id : Option OrderId
  new_size : Option ℚ
  new_price : Option Price
  old_price : Option Price
deriving DecidableEq, Repr

/-- A message with no fields at all. -/
def emptyMsg : Message :=
  { type' := none, sequence := none, order_id := none, id := none,
    side := none, price := none, size := none, remaining_size := none,
    maker_order_id := none, new_size := none, new_price := none,
    old_price := none }

/-- The full mutable state of an `OrderBook` instance. -/
structure OrderBook where
  asks : List (Price × List Order)
  bids : List (Price × List Order)
  sequence : Int
  price_dict : List (OrderId × Price)
  current_ticker : Option Message
deriving DecidableEq, Repr

/-- `SortedDict.get(price)`: first (unique, in sorted states) entry. -/
def alist_get {α : Type} (m : List (Price × α)) (p : Price) : Option α :=
  match m with
  | [] => none
  | (q, v) :: t => if p = q then some v else alist_get t p

/-- `SortedDict.__setitem__`: replace in place, or insert at the sorted
position for a fresh key. -/
def alist_set {α : Type} (m : List (Price × α)) (p : Price) (v : α) :
    List (Price × α) :=
  match m with
  | [] => [(p, v)]
  | (q, w) :: t =>
    if p = q then (p, v) :: t
    else if p < q then (p, v) :: (q, w) :: t
    else (q, w) :: alist_set t p v

/-- `SortedDict.__delitem__` (only ever called on a present key). -/
def alist_del {α : Type} (m : List (Price × α)) (p : Price) :
    List (Price × α) :=
  match m with
  | [] => []
  | (q, w) :: t => if p = q then alist_del t p else (q, w) :: alist_del t p

/-- `price_dict`-style `dict` lookup. -/
def pd_lookup (m : List (OrderId × Price)) (i : OrderId) : Option Price :=
  match m with
  | [] => none
  | (j, q) :: t => if i = j then some q else pd_lookup t i

/-- `dict.__setitem__`: overwrite in place, append at end for a fresh key. -/
def pd_set (m : List (OrderId × Price)) (i : OrderId) (p : Price) :
    List (OrderId × Price) :=
  match m with
  | [] => [(i, p)]
  | (j, q) :: t => if i = j then (i, p) :: t else (j, q) :: pd_set t i p

/-- `dict.__delitem__` (only ever called on a present key). -/
def pd_del (m : List (OrderId × Price)) (i : OrderId) :
    List (OrderId × Price) :=
  match m with
  | [] => []
  | (j, q) :: t => if i = j then pd_del t i else (j, q) :: pd_del t i

/-- Python `a or b` on string-valued dict fields: `None` and `""` are falsy. -/
def pyOrStr (a b : Option String) : Option String :=
  match a with
  | some s => if s = "" then b else some s
  | none => b

/-- Python `a or b` on Decimal-valued dict fields: `None` and `0` are falsy. -/
def pyOrQ (a b : Option ℚ) : Option ℚ :=
  match a with
  | some x => if x = 0 then b else some x
  | none => b

/-- `OrderBook.get_asks`. -/
def get_asks (b : OrderBook) (p : Price) : Option (List Order) :=
  alist_get b.asks p

/-- `OrderBook.set_asks`. -/
def set_asks (b : OrderBook) (p : Price) (l : List Order) : OrderBook :=
  { b with asks := alist_set b.asks p l }

/-- `OrderBook.remove_asks`. -/
def remove_asks (b : OrderBook) (p : Price) : OrderBook :=
  { b with asks := alist_del b.asks p }

/-- `OrderBook.get_bids`. -/
def get_bids (b : OrderBook) (p : Price) : Option (List Order) :=
  alist_get b.bids p

/-- `OrderBook.set_bids`. -/
def set_bids (b : OrderBook) (p : Price) (l : List Order) : OrderBook :=
  { b with bids := alist_set b.bids p l }

/-- `OrderBook.remove_bids`. -/
def remove_bids (b : OrderBook) (p : Price) : OrderBook :=
  { b with bids := alist_del b.bids p }

/-- `OrderBook.get_ask_by_id`: scan levels in key order, FIFO order inside. -/
def get_ask_by_id (b : OrderBook) (i : OrderId) : Option Order :=
  b.asks.findSome? (fun pl => pl.2.find? (fun o => o.id = i))

/-- `OrderBook.get_bid_by_id`. -/
def get_bid_by_id (b : OrderBook) (i : OrderId) : Option Order :=
  b.bids.findSome? (fun pl => pl.2.find? (fun o => o.id = i))

/-- `OrderBook.add`: normalize the message to an order dict (possible
`KeyError` when both id fields or both size fields are absent/falsy), append
it to the FIFO at its price, and index it in `price_dict`. -/
def add (b : OrderBook) (m : Message) : Option OrderBook := do
  let oid ← pyOrStr m.order_id m.id
  let sd ← m.side
  let p ← m.price
  let sz ← pyOrQ m.size m.remaining_size
  let o : Order := { id := oid, side := sd, price := p, size := sz }
  if sd = "buy" then
    let l := match get_bids b p with
      | none => [o]
      | some l0 => l0 ++ [o]
    some { set_bids b p l with price_dict := pd_set b.price_dict o.id o.price }
  else
    let l := match get_asks b p with
      | none => [o]
      | some l0 => l0 ++ [o]
    some { set_asks b p l with price_dict := pd_set b.price_dict o.id o.price }

/-- `OrderBook.remove`: resolve the price through `price_dict` when the id is
indexed (deleting the index entry), then strip the id from the FIFO at the
resolved price, dropping the level if it empties; returns the found flag. -/
def remove (b : OrderBook) (m : Message) : Option (OrderBook × Bool) := do
  let oid ← m.order_id
  let claimed ← m.price
  let sd ← m.side
  let (pd, price) :=
    match pd_lookup b.price_dict oid with
    | some ip => (pd_del b.price_dict oid, ip)
    | none => (b.price_dict, claimed)
  let b1 : OrderBook := { b with price_dict := pd }
  if sd = "buy" then
    match get_bids b1 price with
    | none => some (b1, false)
    | some l =>
      let found := l.any (fun o => o.id = oid)
      let l2 := l.filter (fun o => ¬ o.id = oid)
      if l2.length > 0 then some (set_bids b1 price l2, found)
      else some (remove_bids b1 price, found)
  else
    match get_asks b1 price with
    | none => some (b1, false)
    | some l =>
      let found := l.any (fun o => o.id = oid)
      let l2 := l.filter (fun o => ¬ o.id = oid)
      if l2.length > 0 then some (set_asks b1 price l2, found)
      else some (remove_asks b1 price, found)

/-- The level rewrite inside `OrderBook.match` once the level `h :: t` at the
traded price is known to be non-empty: if the head is the maker, reduce its
size in place; otherwise partition by maker id, `assert` that exactly one
entry matches (`none` = `AssertionError`), move it to the head and reduce. -/
def matchLevel (h : Order) (t : List Order) (mid : OrderId) (sz : ℚ) :
    Option (List Order) :=
  if h.id = mid then some ({ h with size := h.size - sz } :: t)
  else
    let news := (h :: t).filter (fun o => o.id = mid)
    let others := (h :: t).filter (fun o => ¬ o.id = mid)
    match news with
    | [o] => some ({ o with size := o.size - sz } :: others)
    | _ => none

/-- `OrderBook.match` (named `match_event`; `match` is reserved in Lean):
returns unchanged when the level is absent or empty, otherwise rewrites the
level via `matchLevel`; never touches `price_dict`. -/
def match_event (b : OrderBook) (m : Message) : Option OrderBook := do
  let sz ← m.size
  let p ← m.price
  let sd ← m.side
  if sd = "buy" then
    match get_bids b p with
    | none => some b
    | some [] => some b
    | some (h :: t) => do
      let mid ← m.maker_order_id
      let l2 ← matchLevel h t mid sz
      some (set_bids b p l2)
  else
    match get_asks b p with
    | none => some b
    | some [] => some b
    | some (h :: t) => do
      let mid ← m.maker_order_id
      let l2 ← matchLevel h t mid sz
      some (set_asks b p l2)

/-- Replace the size of the first order with the given id
(`bids[index]['size'] = new_size` after `index(...)` in the source). -/
def updateFirstSize : List Order → OrderId → ℚ → List Order
  | [], _, _ => []
  | o :: t, i, sz =>
    if o.id = i then { o with size := sz } :: t else o :: updateFirstSize t i sz

/-- The `remove_order` dict built by the re-pricing branch of `change`. -/
def chgRmMsg (sd : String) (oid : OrderId) (op : Price) (nsz : ℚ) : Message :=
  { emptyMsg with price := some op, size := some nsz,
                  side := some sd, order_id := some oid }

/-- The `add_order` dict built by the re-pricing branch of `change`. -/
def chgAddMsg (sd : String) (oid : OrderId) (np : Price) (nsz : ℚ) : Message :=
  { emptyMsg with price := some np, size := some nsz,
                  side := some sd, order_id := some oid }

/-- `OrderBook.change`: missing `new_size` is caught and ignored; with
`new_price` the order is removed at `old_price` and re-added only when the
removal found it; otherwise the size of the located resting order is updated
in place (the `assert price == old_order['price']` and the unbound
`old_order` on a side that is neither `'buy'` nor `'sell'` are crashes). -/
def change (b : OrderBook) (m : Message) : Option OrderBook :=
  match m.new_size with
  | none => some b
  | some new_size =>
    match m.new_price with
    | some np => do
      let op ← m.old_price
      let sd ← m.side
      let oid ← m.order_id
      let (b1, found) ← remove b (chgRmMsg sd oid op new_size)
      if found then
        add b1 (chgAddMsg sd oid np new_size)
      else
        some b1
    | none => do
      let pr : Option Price := m.price
      let oid ← m.order_id
      let sd ← m.side
      let old? ←
        if sd = "buy" then some (get_bid_by_id b oid)
        else if sd = "sell" then some (get_ask_by_id b oid)
        else none
      match old? with
      | none => some b
      | some old => do
        let price ←
          match pr with
          | none => some old.price
          | some pv => if pv = old.price then some pv else none
        if sd = "buy" then
          match get_bids b price with
          | none => some b
          | some l =>
            if l.any (fun o => o.id = oid) then
              some (set_bids b price (updateFirstSize l oid new_size))
            else some b
        else
          match get_asks b price with
          | none => some b
          | some l =>
            if l.any (fun o => o.id = oid) then
              some (set_asks b price (updateFirstSize l oid new_size))
            else some b

/-- A full level-3 depth snapshot as returned by
`get_product_order_book(level=3)`: `(price, size, id)` triples per side. -/
structure Snapshot where
  bids : List (Price × ℚ × OrderId)
  asks : List (Price × ℚ × OrderId)
  sequence : Int
deriving DecidableEq, Repr

/-- The dict `reset_book` passes to `add` for one snapshot entry. -/
def snapEntryMsg (sd : String) (e : Price × ℚ × OrderId) : Message :=
  { emptyMsg with id := some e.2.2, side := some sd,
                  price := some e.1, size := some e.2.1 }

/-- `OrderBook.populate_price_dict`: rebuild `price_dict` from scratch,
iterating asks then bids in key order. -/
def populate_price_dict (b : OrderBook) : OrderBook :=
  let pd1 := b.asks.foldl (fun acc pl =>
    pl.2.foldl (fun a o => pd_set a o.id o.price) acc) []
  let pd2 := b.bids.foldl (fun acc pl =>
    pl.2.foldl (fun a o => pd_set a o.id o.price) acc) pd1
  { b with price_dict := pd2 }

/-- `OrderBook.reset_book`: clear both sides, `add` every snapshot bid then
every snapshot ask, set the sequence to the snapshot's, rebuild the index. -/
def reset_book (snap : Snapshot) (b : OrderBook) : Option OrderBook := do
  let b1 ← snap.bids.foldlM (fun st e => add st (snapEntryMsg "buy" e))
      { b with asks := [], bids := [] }
  let b2 ← snap.asks.foldlM (fun st e => add st (snapEntryMsg "sell" e)) b1
  some (populate_price_dict { b2 with sequence := snap.sequence })

/-- `OrderBook.on_message`: the sequence gate (uninitialized / stale / gap /
next) followed by the per-type dispatch; `snap` stands for the snapshot the
external `get_product_order_book` call would return during a reset. -/
def on_message (snap : Snapshot) (b : OrderBook) (m : Message) :
    Option OrderBook :=
  let sequence := m.sequence.getD (-1)
  if b.sequence = -1 then reset_book snap b
  else if sequence ≤ b.sequence then some b
  else if sequence > b.sequence + 1 then reset_book snap b
  else do
    let t ← m.type'
    let b' ←
      if t = "open" then add b m
      else if t = "done" ∧ m.price.isSome then (remove b m).map Prod.fst
      else if t = "match" then
        (match_event b m).map (fun x => { x with current_ticker := some m })
      else if t = "change" then change b m
      else some b
    some { b' with sequence := sequence }

/-- The state `OrderBook.__init__` creates: empty sides, empty index,
sequence `-1`, no ticker. -/
def initBook : OrderBook :=
  { asks := [], bids := [], sequence := -1, price_dict := [],
    current_ticker := none }

/-! Proof-side abbreviations and predicates. -/

/-- The side of the book an event with side string `sd` operates on:
`'buy'` selects the bids, anything else the asks, mirroring the source's
`if order['side'] == 'buy'` / `else` branches. -/
def side_levels (b : OrderBook) (sd : String) : List (Price × List Order) :=
  if sd = "buy" then b.bids else b.asks

/-- The opposite side of the book. -/
def other_levels (b : OrderBook) (sd : String) : List (Price × List Order) :=
  if sd = "buy" then b.asks else b.bids

/-- Write one level on the side selected by `sd`. -/
def set_side (b : OrderBook) (sd : String) (p : Price) (l : List Order) :
    OrderBook :=
  if sd = "buy" then set_bids b p l else set_asks b p l

/-- Strictly ascending price keys: the representation invariant of the
`SortedDict` embedding. -/
def keysSorted {α : Type} (m : List (Price × α)) : Prop :=
  (m.map Prod.fst).Pairwise (· < ·)

instance keysSorted_decidable {α : Type} (m : List (Price × α)) :
    Decidable (keysSorted m) :=
  inferInstanceAs (Decidable ((m.map Prod.fst).Pairwise (· < ·)))

/-- The `{'id', 'side', 'price', 'size'}` dict describing an order, as the
snapshot loader or an `open` message would present it. -/
def orderMsg (o : Order) : Message :=
  { emptyMsg with order_id := some o.id, side := some o.side,
                  price := some o.price, size := some o.size }

/-- The `done`-style dict naming an order's own id, price and side. -/
def rmvMsg (o : Order) : Message :=
  { emptyMsg with order_id := some o.id, price := some o.price,
                  side := some o.side }

/-- An order rests in a side of the book: some level contains it. -/
def RestsIn (m : List (Price × List Order)) (o : Order) : Prop :=
  ∃ p l, (p, l) ∈ m ∧ o ∈ l

/-- An order rests somewhere in the book. -/
def Rests (b : OrderBook) (o : Order) : Prop :=
  RestsIn b.bids o ∨ RestsIn b.asks o

/-- No order with the given id rests in this side. -/
def NoIdIn (m : List (Price × List Order)) (i : OrderId) : Prop :=
  ∀ o : Order, RestsIn m o → o.id ≠ i

/-- An event carrying side string `sd` for order `i` is side-consistent with
the book: the order does not rest on the opposite side of the one the event
will be applied to. -/
def sideOk (b : OrderBook) (sd : String) (i : OrderId) : Prop :=
  if sd = "buy" then NoIdIn b.asks i else NoIdIn b.bids i

/-- Well-formedness of one side's level structure: sorted keys, non-empty
FIFOs, and every stored order carrying its level's price. -/
structure SideInv (m : List (Price × List Order)) : Prop where
  sorted : keysSorted m
  nonempty : ∀ p l, (p, l) ∈ m → l ≠ []
  keyed : ∀ p l o, (p, l) ∈ m → o ∈ l → Order.price o = p

/-- The well-formedness invariant of a healthy book: both sides well formed,
and an order index (`price_dict`) that lists exactly the resting ids at
their stored prices. -/
structure BookInv (b : OrderBook) : Prop where
  bids_inv : SideInv b.bids
  asks_inv : SideInv b.asks
  idx_of_rest : ∀ o, Rests b o → pd_lookup b.price_dict o.id = some o.price
  rest_of_idx : ∀ i p, pd_lookup b.price_dict i = some p →
    ∃ o, Rests b o ∧ Order.id o = i
  pd_nodup : (b.price_dict.map Prod.fst).Nodup

/-- The orders of one side, flattened in level order (the order
`populate_price_dict` visits them in). -/
def sideOrders (m : List (Price × List Order)) : List Order :=
  m.foldr (fun pl acc => pl.2 ++ acc) []

/-- All resting orders, asks first — the overall visit order of
`populate_price_dict`. -/
def allOrders (b : OrderBook) : List Order :=
  sideOrders b.asks ++ sideOrders b.bids

/-- A snapshot is well formed when its order ids are pairwise distinct
(across both sides) and its sizes are nonzero (a zero size trips the
`order.get('size') or order['remaining_size']` fallback into a `KeyError`). -/
def SnapOk (snap : Snapshot) : Prop :=
  ((snap.bids ++ snap.asks).map (fun e => e.2.2)).Nodup ∧
  ∀ e ∈ snap.bids ++ snap.asks, e.2.1 ≠ (0 : ℚ)

/-- An inbound message is well formed with respect to the current book:
an `open` introduces a fresh order id, and `done` / `change` events name the
side their order actually rests on. -/
def MsgOk (b : OrderBook) (m : Message) : Prop :=
  (m.type' = some "open" → ∀ i, pyOrStr m.order_id m.id = some i →
    ∀ o, Rests b o → Order.id o ≠ i) ∧
  (m.type' = some "done" → ∀ sd i, m.side = some sd → m.order_id = some i →
    sideOk b sd i) ∧
  (m.type' = some "change" → ∀ sd i, m.side = some sd → m.order_id = some i →
    sideOk b sd i)

/-- States reachable from a fresh `OrderBook` instance by snapshot loads
(with well-formed snapshots) and `on_message` deliveries of well-formed
messages. -/
inductive Reachable : OrderBook → Prop where
  | init : Reachable initBook
  | snapshot {b b' : OrderBook} {snap : Snapshot} : Reachable b →
      SnapOk snap → reset_book snap b = some b' → Reachable b'
  | step {b b' : OrderBook} {snap : Snapshot} {m : Message} : Reachable b →
      SnapOk snap → MsgOk b m → on_message snap b m = some b' → Reachable b'

/-- States reachable by snapshot loads and accepted events with no
well-formedness restriction at all: the letter of the claim. -/
inductive ReachableRaw : OrderBook → Prop where
  | init : ReachableRaw initBook
  | snapshot {b b' : OrderBook} {snap : Snapshot} : ReachableRaw b →
      reset_book snap b = some b' → ReachableRaw b'
  | step {b b' : OrderBook} {snap : Snapshot} {m : Message} : ReachableRaw b →
      on_message snap b m = some b' → ReachableRaw b'

/-! Concrete states and messages used by witnesses and counterexamples. -/

/-- A one-order book: a single bid `"A"` of size 1 resting at 100,
correctly indexed, sequence 5. -/
def bkA : OrderBook :=
  { asks := [],
    bids := [(100, [{ id := "A", side := "buy", price := 100, size := 1 }])],
    sequence := 5, price_dict := [("A", 100)], current_ticker := none }

/-- An empty snapshot at sequence 7. -/
def snapE : Snapshot := { bids := [], asks := [], sequence := 7 }

/-- A one-bid snapshot at sequence 9. -/
def snapB : Snapshot := { bids := [(50, 2, "S")], asks := [], sequence := 9 }

/-- The book `reset_book` builds from `snapB` on a fresh instance: the one
snapshot bid resting at 50, indexed, sequence 9. -/
def bkS : OrderBook :=
  { asks := [],
    bids := [(50, [{ id := "S", side := "buy", price := 50, size := 2 }])],
    sequence := 9, price_dict := [("S", 50)], current_ticker := none }

/-- A buy-side match of size 2/5 against maker `"A"` at price 100. -/
def mMatchA : Message :=
  { emptyMsg with side := some "buy", price := some 100, size := some (2/5),
                  maker_order_id := some "A" }

/-- `bkA` after `mMatchA`: the resting order's size is reduced in place. -/
def bkAm : OrderBook :=
  { asks := [],
    bids := [(100, [{ id := "A", side := "buy", price := 100,
                      size := 1 - 2/5 }])],
    sequence := 5, price_dict := [("A", 100)], current_ticker := none }

/-- A buy-side match of size 1 naming maker `"B"` at price 100. -/
def mMatchB : Message :=
  { emptyMsg with side := some "buy", price := some 100, size := some 1,
                  maker_order_id := some "B" }

/-- A book whose level at 100 holds `"X"` then `"A"` (maker `"A"` is not at
the head). -/
def bkXA : OrderBook :=
  { asks := [],
    bids := [(100, [{ id := "X", side := "buy", price := 100, size := 2 },
                    { id := "A", side := "buy", price := 100, size := 1 }])],
    sequence := 5, price_dict := [("X", 100), ("A", 100)],
    current_ticker := none }

/-- A buy-side match of size 1 naming maker `"A"` at price 100. -/
def mMatchA1 : Message :=
  { emptyMsg with side := some "buy", price := some 100, size := some 1,
                  maker_order_id := some "A" }

/-- A re-pricing `change` for an order `"Z"` that never rested in `bkA`. -/
def mChgZ : Message :=
  { emptyMsg with type' := some "change", side := some "buy",
                  order_id := some "Z", old_price := some 100,
                  new_price := some 101, new_size := some 1 }

/-- A book where `"A"` rests at price 5 and is indexed there. -/
def bkA5 : OrderBook :=
  { asks := [],
    bids := [(5, [{ id := "A", side := "buy", price := 5, size := 1 }])],
    sequence := 1, price_dict := [("A", 5)], current_ticker := none }

/-- A second order reusing id `"A"` at another price. -/
def oA6 : Order := { id := "A", side := "buy", price := 6, size := 1 }

/-- A fresh order `"B"` at price 100, joining the level of `"A"` in `bkA`. -/
def oB : Order := { id := "B", side := "buy", price := 100, size := 1 }

/-- An empty snapshot at sequence 0. -/
def snap0 : Snapshot := { bids := [], asks := [], sequence := 0 }

/-- An `open` for order `"A"` at a given price and sequence. -/
def mOpenA (p : Price) (sq : Int) : Message :=
  { emptyMsg with type' := some "open", sequence := some sq,
                  order_id := some "A", side := some "buy", price := some p,
                  size := some 1 }

/-- The book after the empty snapshot load at sequence 0. -/
def bk0 : OrderBook :=
  { asks := [], bids := [], sequence := 0, price_dict := [],
    current_ticker := none }

/-- `bk0` after `open "A"@100` (sequence 1). -/
def bk1 : OrderBook :=
  { asks := [],
    bids := [(100, [{ id := "A", side := "buy", price := 100, size := 1 }])],
    sequence := 1, price_dict := [("A", 100)], current_ticker := none }

/-- `bk1` after a second `open "A"@101` (sequence 2): order `"A"` now rests
at two prices while the index knows only 101. -/
def bkDup : OrderBook :=
  { asks := [],
    bids := [(100, [{ id := "A", side := "buy", price := 100, size := 1 }]),
             (101, [{ id := "A", side := "buy", price := 101, size := 1 }])],
    sequence := 2, price_dict := [("A", 101)], current_ticker := none }

/-! ### Association-list lemmas -/

theorem alist_get_set_self {α : Type} (m : List (Price × α)) (p : Price)
    (v : α) : alist_get (alist_set m p v) p = some v := by
  induction m with
  | nil => simp [alist_set, alist_get]
  | cons h t ih =>
    obtain ⟨q, w⟩ := h
    by_cases hpq : p = q
    · simp [alist_set, alist_get, hpq]
    · by_cases hlt : p < q
      · simp [alist_set, alist_get, hpq, hlt]
      · simp [alist_set, alist_get, hpq, hlt, ih]

theorem alist_get_set_ne {α : Type} (m : List (Price × α)) (p q : Price)
    (v : α) (h : q ≠ p) : alist_get (alist_set m p v) q = alist_get m q := by
  induction m with
  | nil => simp [alist_set, alist_get, h]
  | cons hd t ih =>
    obtain ⟨r, w⟩ := hd
    by_cases hpr : p = r
    · subst hpr
      simp [alist_set, alist_get, h]
    · by_cases hlt : p < r
      · simp [alist_set, alist_get, hpr, hlt, h]
      · simp [alist_set, alist_get, hpr, hlt, ih]

theorem alist_get_del_self {α : Type} (m : List (Price × α)) (p : Price) :
    alist_get (alist_del m p) p = none := by
  induction m with
  | nil => simp [alist_del, alist_get]
  | cons hd t ih =>
    obtain ⟨q, w⟩ := hd
    by_cases hpq : p = q
    · subst hpq
      simp [alist_del, ih]
    · simp [alist_del, alist_get, hpq, ih]

theorem alist_get_del_ne {α : Type} (m : List (Price × α)) (p q : Price)
    (h : q ≠ p) : alist_get (alist_del m p) q = alist_get m q := by
  induction m with
  | nil => simp [alist_del]
  | cons hd t ih =>
    obtain ⟨r, w⟩ := hd
    by_cases hpr : p = r
    · subst hpr
      simp [alist_del, alist_get, h, ih]
    · by_cases hqr : q = r
      · simp [alist_del, alist_get, hpr, hqr]
      · simp [alist_del, alist_get, hpr, hqr, ih]

theorem alist_set_set {α : Type} (m : List (Price × α)) (p : Price)
    (v w : α) : alist_set (alist_set m p v) p w = alist_set m p w := by
  induction m with
  | nil => simp [alist_set]
  | cons hd t ih =>
    obtain ⟨q, u⟩ := hd
    by_cases hpq : p = q
    · simp [alist_set, hpq]
    · by_cases hlt : p < q
      · simp [alist_set, hpq, hlt, lt_irrefl]
      · simp [alist_set, hpq, hlt, ih]

theorem alist_get_none_no_key {α : Type} (m : List (Price × α)) (p : Price)
    (h : alist_get m p = none) : ∀ v, (p, v) ∉ m := by
  induction m with
  | nil => simp
  | cons hd t ih =>
    obtain ⟨q, w⟩ := hd
    by_cases hpq : p = q
    · simp [alist_get, hpq] at h
    · simp [alist_get, hpq] at h
      intro v hv
      rcases List.mem_cons.mp hv with h1 | h1
      · exact hpq (congrArg Prod.fst h1)
      · exact ih h v h1

theorem alist_del_set_fresh {α : Type} (m : List (Price × α)) (p : Price)
    (v : α) (h : alist_get m p = none) : alist_del (alist_set m p v) p = m := by
  induction m with
  | nil => simp [alist_set, alist_del]
  | cons hd t ih =>
    obtain ⟨q, w⟩ := hd
    by_cases hpq : p = q
    · simp [alist_get, hpq] at h
    · simp [alist_get, hpq] at h
      by_cases hlt : p < q
      · have hdel : alist_del t p = t := by
          clear ih hlt
          induction t with
          | nil => simp [alist_del]
          | cons hd2 t2 ih2 =>
            obtain ⟨r, u⟩ := hd2
            by_cases hpr : p = r
            · simp [alist_get, hpr] at h
            · simp [alist_get, hpr] at h
              simp [alist_del, hpr, ih2 h]
        simp [alist_set, alist_del, hpq, hlt, hdel]
      · simp [alist_set, alist_del, hpq, hlt, ih h]

theorem alist_del_none {α : Type} (m : List (Price × α)) (p : Price)
    (h : alist_get m p = none) : alist_del m p = m := by
  induction m with
  | nil => simp [alist_del]
  | cons hd t ih =>
    obtain ⟨q, w⟩ := hd
    by_cases hpq : p = q
    · simp [alist_get, hpq] at h
    · simp [alist_get, hpq] at h
      simp [alist_del, hpq, ih h]

theorem alist_set_self_of_get {α : Type} (m : List (Price × α)) (p : Price)
    (v : α) (hs : keysSorted m) (h : alist_get m p = some v) :
    alist_set m p v = m := by
  induction m with
  | nil => simp [alist_get] at h
  | cons hd t ih =>
    obtain ⟨q, w⟩ := hd
    rw [keysSorted, List.map_cons, List.pairwise_cons] at hs
    by_cases hpq : p = q
    · simp [alist_get, hpq] at h
      simp [alist_set, hpq, h]
    · simp [alist_get, hpq] at h
      have hpt : p ∈ t.map Prod.fst := by
        clear ih hs
        induction t with
        | nil => simp [alist_get] at h
        | cons hd2 t2 ih2 =>
          obtain ⟨r, u⟩ := hd2
          by_cases hpr : p = r
          · simp [hpr]
          · simp [alist_get, hpr] at h
            simpa using Or.inr (ih2 h)
      have hqp : q < p := hs.1 p hpt
      have hnlt : ¬ p < q := not_lt.mpr (le_of_lt hqp)
      simp [alist_set, hpq, hnlt, ih hs.2 h]

/-! ### `price_dict` lemmas -/

theorem pd_lookup_set_self (m : List (OrderId × Price)) (i : OrderId)
    (p : Price) : pd_lookup (pd_set m i p) i = some p := by
  induction m with
  | nil => simp [pd_set, pd_lookup]
  | cons hd t ih =>
    obtain ⟨j, q⟩ := hd
    by_cases hij : i = j
    · simp [pd_set, pd_lookup, hij]
    · simp [pd_set, pd_lookup, hij, ih]

theorem pd_lookup_set_ne (m : List (OrderId × Price)) (i j : OrderId)
    (p : Price) (h : j ≠ i) :
    pd_lookup (pd_set m i p) j = pd_lookup m j := by
  induction m with
  | nil => simp [pd_set, pd_lookup, h]
  | cons hd t ih =>
    obtain ⟨k, q⟩ := hd
    by_cases hik : i = k
    · subst hik
      simp [pd_set, pd_lookup, h]
    · by_cases hjk : j = k
      · simp [pd_set, pd_lookup, hik, hjk]
      · simp [pd_set, pd_lookup, hik, hjk, ih]

theorem pd_lookup_del_self (m : List (OrderId × Price)) (i : OrderId) :
    pd_lookup (pd_del m i) i = none := by
  induction m with
  | nil => simp [pd_del, pd_lookup]
  | cons hd t ih =>
    obtain ⟨j, q⟩ := hd
    by_cases hij : i = j
    · subst hij
      simp [pd_del, ih]
    · simp [pd_del, pd_lookup, hij, ih]

theorem pd_lookup_del_ne (m : List (OrderId × Price)) (i j : OrderId)
    (h : j ≠ i) : pd_lookup (pd_del m i) j = pd_lookup m j := by
  induction m with
  | nil => simp [pd_del]
  | cons hd t ih =>
    obtain ⟨k, q⟩ := hd
    by_cases hik : i = k
    · subst hik
      simp [pd_del, pd_lookup, h, ih]
    · by_cases hjk : j = k
      · simp [pd_del, pd_lookup, hik, hjk]
      · simp [pd_del, pd_lookup, hik, hjk, ih]

theorem pd_del_set_fresh (m : List (OrderId × Price)) (i : OrderId)
    (p : Price) (h : pd_lookup m i = none) : pd_del (pd_set m i p) i = m := by
  induction m with
  | nil => simp [pd_set, pd_del]
  | cons hd t ih =>
    obtain ⟨j, q⟩ := hd
    by_cases hij : i = j
    · simp [pd_lookup, hij] at h
    · simp [pd_lookup, hij] at h
      simp [pd_set, pd_del, hij, ih h]

theorem pd_del_none (m : List (OrderId × Price)) (i : OrderId)
    (h : pd_lookup m i = none) : pd_del m i = m := by
  induction m with
  | nil => simp [pd_del]
  | cons hd t ih =>
    obtain ⟨j, q⟩ := hd
    by_cases hij : i = j
    · simp [pd_lookup, hij] at h
    · simp [pd_lookup, hij] at h
      simp [pd_del, hij, ih h]

/-! ### C2: stale events are discarded without mutation -/

/-- C2. Stale discard: once the sequence state is initialized, a message
whose sequence number (defaulted to `-1` when absent) is at most the
last-applied sequence leaves the entire state unchanged and raises no
error. -/
theorem c2_stale_discard (snap : Snapshot) (b : OrderBook) (m : Message)
    (hinit : b.sequence ≠ -1) (hstale : m.sequence.getD (-1) ≤ b.sequence) :
    on_message snap b m = some b := by
  unfold on_message
  simp [hinit, hstale]

/-- C2 witness: a stale replay at sequence 3 against `bkA` (sequence 5). -/
theorem c2_stale_discard_witness :
    on_message snapE bkA { emptyMsg with sequence := some 3 } = some bkA :=
  c2_stale_discard snapE bkA { emptyMsg with sequence := some 3 }
    (by decide) (by decide)

/-! ### C9: unrecognized next-in-sequence types advance the sequence only -/

/-- C9. A next-in-sequence message whose type is none of `open`,
`done`-with-price, `match` or `change` (for example `received`, or `done`
without a `price` field) leaves both book sides and the order index
untouched, yet still advances the last-applied sequence to its own. -/
theorem c9_other_types_advance_sequence (snap : Snapshot) (b : OrderBook)
    (m : Message) (t : String) (hinit : b.sequence ≠ -1)
    (hnext : m.sequence.getD (-1) = b.sequence + 1) (ht : m.type' = some t)
    (hopen : t ≠ "open") (hdone : ¬(t = "done" ∧ m.price.isSome))
    (hmatch : t ≠ "match") (hchange : t ≠ "change") :
    on_message snap b m = some { b with sequence := b.sequence + 1 } := by
  unfold on_message
  rw [hnext]
  simp [hinit, ht, hopen, hdone, hmatch, hchange]

/-- C9 witness: a `received` message at sequence 6 against `bkA`. -/
theorem c9_other_types_advance_sequence_witness :
    on_message snapE bkA
      { emptyMsg with type' := some "received", sequence := some 6 } =
      some { bkA with sequence := 6 } :=
  c9_other_types_advance_sequence snapE bkA
    { emptyMsg with type' := some "received", sequence := some 6 }
    "received" (by decide) (by decide) rfl (by decide) (by decide)
    (by decide) (by decide)

/-! ### C10: a match against a missing or empty level is a no-op -/

/-- C10. Applying a `match` whose price has no corresponding level on the
given side (level absent, or its FIFO empty) leaves the whole state — book
sides, order index and sequence — unchanged and raises no error. -/
theorem c10_match_missing_level (b : OrderBook) (m : Message) (sz : ℚ)
    (p : Price) (sd : String) (hsz : m.size = some sz) (hp : m.price = some p)
    (hsd : m.side = some sd)
    (hlvl : alist_get (side_levels b sd) p = none ∨
            alist_get (side_levels b sd) p = some []) :
    match_event b m = some b := by
  unfold match_event
  rw [hsz, hp, hsd]
  by_cases hb : sd = "buy"
  · rw [side_levels, if_pos hb] at hlvl
    rcases hlvl with h | h <;>
      simp [hb, get_bids, h]
  · rw [side_levels, if_neg hb] at hlvl
    rcases hlvl with h | h <;>
      simp [hb, get_asks, h]

/-- C10 witness: a sell-side match at a price with no ask level in `bkA`. -/
theorem c10_match_missing_level_witness :
    match_event bkA
      { emptyMsg with side := some "sell", price := some 101, size := some 1,
                      maker_order_id := some "A" } = some bkA :=
  c10_match_missing_level bkA
    { emptyMsg with side := some "sell", price := some 101, size := some 1,
                    maker_order_id := some "A" }
    1 101 "sell" rfl rfl rfl (Or.inl (by decide))

/-! ### C8: `remove` resolves the price through the order index -/

/-- C8. When the id of a `remove` is present in the order index and the
event's claimed price differs from the indexed one, the removal targets the
level at the **indexed** price: the index entry is deleted, every level
other than the indexed one (in particular the one at the claimed price) is
untouched, the opposite side is untouched, and the returned flag reports
whether an order with that id was actually present at the resolved price. -/
theorem c8_remove_prefers_indexed_price (b : OrderBook) (m : Message)
    (oid : OrderId) (claimed ip : Price) (sd : String)
    (hoid : m.order_id = some oid) (hp : m.price = some claimed)
    (hsd : m.side = some sd) (hip : pd_lookup b.price_dict oid = some ip)
    (hne : claimed ≠ ip) :
    ∃ b' found, remove b m = some (b', found) ∧
      b'.price_dict = pd_del b.price_dict oid ∧
      pd_lookup b'.price_dict oid = none ∧
      found = ((alist_get (side_levels b sd) ip).getD []).any
        (fun o => o.id = oid) ∧
      other_levels b' sd = other_levels b sd ∧
      b'.sequence = b.sequence ∧ b'.current_ticker = b.current_ticker ∧
      (∀ q, q ≠ ip →
        alist_get (side_levels b' sd) q = alist_get (side_levels b sd) q) ∧
      (∀ l, alist_get (side_levels b sd) ip = some l →
        alist_get (side_levels b' sd) ip =
          (if l.filter (fun o => ¬ o.id = oid) = [] then none
           else some (l.filter (fun o => ¬ o.id = oid)))) := by
  by_cases hb : sd = "buy"
  · subst hb
    cases halvl : alist_get b.bids ip with
    | none =>
      have hrun : remove b m =
          some ({ b with price_dict := pd_del b.price_dict oid }, false) := by
        unfold remove
        rw [hoid, hp, hsd]
        simp [hip, get_bids, halvl]
      refine ⟨_, _, hrun, rfl, pd_lookup_del_self _ _,
        by simp [side_levels, halvl], by simp [other_levels], rfl, rfl,
        fun q hq => by simp [side_levels], fun l hl => ?_⟩
      simp [side_levels, halvl] at hl
    | some l =>
      by_cases h2 : l.filter (fun o => ¬ o.id = oid) = []
      · have hrun : remove b m =
            some ({ b with bids := alist_del b.bids ip,
                           price_dict := pd_del b.price_dict oid },
                  l.any (fun o => o.id = oid)) := by
          unfold remove
          rw [hoid, hp, hsd]
          simp only [decide_not] at h2
          simp [hip, get_bids, halvl, h2, remove_bids, decide_not]
        refine ⟨_, _, hrun, rfl, pd_lookup_del_self _ _,
          by simp [side_levels, halvl], by simp [other_levels], rfl, rfl,
          fun q hq => ?_, fun l' hl' => ?_⟩
        · simpa [side_levels] using alist_get_del_ne b.bids ip q hq
        · have hpr := hl'
          simp [side_levels, halvl] at hpr
          subst hpr
          have hsl : side_levels
              { b with bids := alist_del b.bids ip,
                       price_dict := pd_del b.price_dict oid } "buy" =
              alist_del b.bids ip := by simp [side_levels]
          rw [hsl, alist_get_del_self, if_pos h2]
      · have h2' : 0 < (l.filter (fun o => ¬ o.id = oid)).length :=
          List.length_pos.mpr h2
        have hrun : remove b m =
            some ({ b with
                      bids := alist_set b.bids ip
                        (l.filter (fun o => ¬ o.id = oid)),
                      price_dict := pd_del b.price_dict oid },
                  l.any (fun o => o.id = oid)) := by
          unfold remove
          rw [hoid, hp, hsd]
          simp only [decide_not] at h2'
          simp [hip, get_bids, halvl, h2', set_bids, decide_not]
        refine ⟨_, _, hrun, rfl, pd_lookup_del_self _ _,
          by simp [side_levels, halvl], by simp [other_levels], rfl, rfl,
          fun q hq => ?_, fun l' hl' => ?_⟩
        · simpa [side_levels] using alist_get_set_ne b.bids ip q _ hq
        · have hpr := hl'
          simp [side_levels, halvl] at hpr
          subst hpr
          have hsl : side_levels
              { b with bids := alist_set b.bids ip
                          (l.filter (fun o => ¬ o.id = oid)),
                       price_dict := pd_del b.price_dict oid } "buy" =
              alist_set b.bids ip (l.filter (fun o => ¬ o.id = oid)) := by
            simp [side_levels]
          rw [hsl, alist_get_set_self, if_neg h2]
  · cases halvl : alist_get b.asks ip with
    | none =>
      have hrun : remove b m =
          some ({ b with price_dict := pd_del b.price_dict oid }, false) := by
        unfold remove
        rw [hoid, hp, hsd]
        simp [hip, hb, get_asks, halvl]
      refine ⟨_, _, hrun, rfl, pd_lookup_del_self _ _,
        by simp [side_levels, hb, halvl], by simp [other_levels, hb], rfl,
        rfl, fun q hq => by simp [side_levels, hb], fun l hl => ?_⟩
      simp [side_levels, hb, halvl] at hl
    | some l =>
      by_cases h2 : l.filter (fun o => ¬ o.id = oid) = []
      · have hrun : remove b m =
            some ({ b with asks := alist_del b.asks ip,
                           price_dict := pd_del b.price_dict oid },
                  l.any (fun o => o.id = oid)) := by
          unfold remove
          rw [hoid, hp, hsd]
          simp only [decide_not] at h2
          simp [hip, hb, get_asks, halvl, h2, remove_asks, decide_not]
        refine ⟨_, _, hrun, rfl, pd_lookup_del_self _ _,
          by simp [side_levels, hb, halvl], by simp [other_levels, hb], rfl,
          rfl, fun q hq => ?_, fun l' hl' => ?_⟩
        · simpa [side_levels, hb] using alist_get_del_ne b.asks ip q hq
        · have hpr := hl'
          simp [side_levels, hb, halvl] at hpr
          subst hpr
          have hsl : side_levels
              { b with asks := alist_del b.asks ip,
                       price_dict := pd_del b.price_dict oid } sd =
              alist_del b.asks ip := by simp [side_levels, hb]
          rw [hsl, alist_get_del_self, if_pos h2]
      · have h2' : 0 < (l.filter (fun o => ¬ o.id = oid)).length :=
          List.length_pos.mpr h2
        have hrun : remove b m =
            some ({ b with
                      asks := alist_set b.asks ip
                        (l.filter (fun o => ¬ o.id = oid)),
                      price_dict := pd_del b.price_dict oid },
                  l.any (fun o => o.id = oid)) := by
          unfold remove
          rw [hoid, hp, hsd]
          simp only [decide_not] at h2'
          simp [hip, hb, get_asks, halvl, h2', set_asks, decide_not]
        refine ⟨_, _, hrun, rfl, pd_lookup_del_self _ _,
          by simp [side_levels, hb, halvl], by simp [other_levels, hb], rfl,
          rfl, fun q hq => ?_, fun l' hl' => ?_⟩
        · simpa [side_levels, hb] using alist_get_set_ne b.asks ip q _ hq
        · have hpr := hl'
          simp [side_levels, hb, halvl] at hpr
          subst hpr
          have hsl : side_levels
              { b with asks := alist_set b.asks ip
                          (l.filter (fun o => ¬ o.id = oid)),
                       price_dict := pd_del b.price_dict oid } sd =
              alist_set b.asks ip (l.filter (fun o => ¬ o.id = oid)) := by
            simp [side_levels, hb]
          rw [hsl, alist_get_set_self, if_neg h2]

/-- C8 witness: a `done` for `"A"` claiming price 99 against `bkA`, whose
index says `"A"` rests at 100. -/
theorem c8_remove_prefers_indexed_price_witness :
    ∃ b' found,
      remove bkA
        { emptyMsg with order_id := some "A", price := some 99,
                        side := some "buy" } = some (b', found) ∧
      b'.price_dict = pd_del bkA.price_dict "A" ∧
      pd_lookup b'.price_dict "A" = none ∧
      found = ((alist_get (side_levels bkA "buy") 100).getD []).any
        (fun o => o.id = "A") ∧
      other_levels b' "buy" = other_levels bkA "buy" ∧
      b'.sequence = bkA.sequence ∧ b'.current_ticker = bkA.current_ticker ∧
      (∀ q, q ≠ 100 →
        alist_get (side_levels b' "buy") q =
          alist_get (side_levels bkA "buy") q) ∧
      (∀ l, alist_get (side_levels bkA "buy") 100 = some l →
        alist_get (side_levels b' "buy") 100 =
          (if l.filter (fun o => ¬ o.id = "A") = [] then none
           else some (l.filter (fun o => ¬ o.id = "A")))) :=
  c8_remove_prefers_indexed_price bkA
    { emptyMsg with order_id := some "A", price := some 99,
                    side := some "buy" }
    "A" 99 100 "buy" rfl rfl rfl (by decide) (by decide)

/-! ### C3: a sequence gap triggers a full resynchronization -/

theorem add_sides_congr (b1 b2 : OrderBook) (m : Message)
    (ha : b1.asks = b2.asks) (hbd : b1.bids = b2.bids) (c1 : OrderBook)
    (h : add b1 m = some c1) :
    ∃ c2, add b2 m = some c2 ∧ c1.asks = c2.asks ∧ c1.bids = c2.bids := by
  unfold add at h ⊢
  cases hoid : pyOrStr m.order_id m.id with
  | none => simp [hoid] at h
  | some oid =>
  cases hsd : m.side with
  | none => simp [hoid, hsd] at h
  | some sd =>
  cases hp : m.price with
  | none => simp [hoid, hsd, hp] at h
  | some p =>
  cases hsz : pyOrQ m.size m.remaining_size with
  | none => simp [hoid, hsd, hp, hsz] at h
  | some sz =>
  simp only [hoid, hsd, hp, hsz, Option.bind_eq_bind, Option.some_bind] at h ⊢
  by_cases hbuy : sd = "buy"
  · simp only [if_pos hbuy] at h ⊢
    simp only [get_bids, hbd] at h
    cases h
    exact ⟨_, rfl, by simp [set_bids, ha],
      by simp [set_bids, get_bids, hbd]⟩
  · simp only [if_neg hbuy] at h ⊢
    simp only [get_asks, ha] at h
    cases h
    exact ⟨_, rfl, by simp [set_asks, get_asks, ha],
      by simp [set_asks, hbd]⟩

theorem foldl_add_sides_congr {α : Type} (g : α → Message) (es : List α) :
    ∀ b1 b2 c1 : OrderBook, b1.asks = b2.asks → b1.bids = b2.bids →
    es.foldlM (fun st e => add st (g e)) b1 = some c1 →
    ∃ c2, es.foldlM (fun st e => add st (g e)) b2 = some c2 ∧
      c1.asks = c2.asks ∧ c1.bids = c2.bids := by
  induction es with
  | nil =>
    intro b1 b2 c1 ha hbd h
    simp only [List.foldlM_nil] at h ⊢
    cases h
    exact ⟨b2, rfl, ha, hbd⟩
  | cons e t ih =>
    intro b1 b2 c1 ha hbd h
    simp only [List.foldlM_cons] at h ⊢
    cases hd : add b1 (g e) with
    | none => rw [hd] at h; simp at h
    | some d1 =>
      rw [hd] at h
      simp only [Option.bind_eq_bind, Option.some_bind] at h
      obtain ⟨d2, hd2, hda, hdb⟩ := add_sides_congr b1 b2 (g e) ha hbd d1 hd
      rw [hd2]
      simp only [Option.bind_eq_bind, Option.some_bind]
      exact ih d1 d2 c1 hda hdb h

theorem reset_book_sides_congr (snap : Snapshot) (b1 b2 c1 : OrderBook)
    (h : reset_book snap b1 = some c1) :
    ∃ c2, reset_book snap b2 = some c2 ∧ c1.asks = c2.asks ∧
      c1.bids = c2.bids ∧ c1.price_dict = c2.price_dict ∧
      c1.sequence = c2.sequence := by
  unfold reset_book at h ⊢
  cases hf1 : snap.bids.foldlM
      (fun st e => add st (snapEntryMsg "buy" e))
      ({ b1 with asks := [], bids := [] } : OrderBook) with
  | none => rw [hf1] at h; simp at h
  | some d1 =>
    rw [hf1] at h
    simp only [Option.bind_eq_bind, Option.some_bind] at h
    obtain ⟨d2, hd2, hda, hdb⟩ := foldl_add_sides_congr _ snap.bids
      { b1 with asks := [], bids := [] } { b2 with asks := [], bids := [] }
      d1 rfl rfl hf1
    rw [hd2]
    simp only [Option.bind_eq_bind, Option.some_bind]
    cases hf2 : snap.asks.foldlM
        (fun st e => add st (snapEntryMsg "sell" e)) d1 with
    | none => rw [hf2] at h; simp at h
    | some e1 =>
      rw [hf2] at h
      simp only [Option.bind_eq_bind, Option.some_bind] at h
      obtain ⟨e2, he2, hea, heb⟩ := foldl_add_sides_congr _ snap.asks
        d1 d2 e1 hda hdb hf2
      rw [he2]
      simp only [Option.bind_eq_bind, Option.some_bind]
      cases h
      refine ⟨_, rfl, ?_, ?_, ?_, ?_⟩ <;>
        simp [populate_price_dict, hea, heb]

theorem reset_book_sets_sequence (snap : Snapshot) (b c : OrderBook)
    (h : reset_book snap b = some c) : c.sequence = snap.sequence := by
  unfold reset_book at h
  cases hf1 : snap.bids.foldlM
      (fun st e => add st (snapEntryMsg "buy" e))
      ({ b with asks := [], bids := [] } : OrderBook) with
  | none => rw [hf1] at h; simp at h
  | some d1 =>
    rw [hf1] at h
    simp only [Option.bind_eq_bind, Option.some_bind] at h
    cases hf2 : snap.asks.foldlM
        (fun st e => add st (snapEntryMsg "sell" e)) d1 with
    | none => rw [hf2] at h; simp at h
    | some e1 =>
      rw [hf2] at h
      simp only [Option.bind_eq_bind, Option.some_bind] at h
      cases h
      simp [populate_price_dict]

/-- C3. Gap resync: an initialized book receiving a message whose sequence
exceeds the last-applied sequence plus one performs a full resynchronization:
the result is exactly the snapshot rebuild (so the triggering event is
discarded), its sequence is the snapshot's, and its sides and order index
are determined by the snapshot alone, independent of the prior state. -/
theorem c3_gap_resync (snap : Snapshot) (b : OrderBook) (m : Message)
    (b' : OrderBook) (hinit : b.sequence ≠ -1)
    (hgap : m.sequence.getD (-1) > b.sequence + 1)
    (hreset : reset_book snap b = some b') :
    on_message snap b m = some b' ∧ b'.sequence = snap.sequence ∧
    ∀ b2 c2, reset_book snap b2 = some c2 →
      c2.asks = b'.asks ∧ c2.bids = b'.bids ∧
      c2.price_dict = b'.price_dict := by
  have hnotstale : ¬ m.sequence.getD (-1) ≤ b.sequence := by omega
  refine ⟨?_, reset_book_sets_sequence snap b b' hreset, ?_⟩
  · unfold on_message
    simp [hinit, hnotstale, hgap, hreset]
  · intro b2 c2 hc2
    obtain ⟨c2', hc2', ha, hbd, hpd, _⟩ :=
      reset_book_sides_congr snap b b2 b' hreset
    rw [hc2] at hc2'
    cases hc2'
    exact ⟨ha.symm, hbd.symm, hpd.symm⟩

/-- C3 witness: a gap (sequence 9 against last-applied 5) with snapshot
`snapB`. -/
theorem c3_gap_resync_witness :
    on_message snapB bkA { emptyMsg with sequence := some 9 } =
        some { asks := [],
               bids := [(50, [{ id := "S", side := "buy", price := 50,
                                size := 2 }])],
               sequence := 9, price_dict := [("S", 50)],
               current_ticker := none } ∧
      ({ asks := [],
         bids := [(50, [{ id := "S", side := "buy", price := 50,
                          size := 2 }])],
         sequence := 9, price_dict := [("S", 50)],
         current_ticker := none } : OrderBook).sequence = snapB.sequence ∧
    ∀ b2 c2, reset_book snapB b2 = some c2 →
      c2.asks = ([] : List (Price × List Order)) ∧
      c2.bids = [(50, [{ id := "S", side := "buy", price := 50, size := 2 }])] ∧
      c2.price_dict = [("S", 50)] :=
  c3_gap_resync snapB bkA { emptyMsg with sequence := some 9 } _
    (by decide) (by decide) (by decide)

theorem side_levels_eq_bids (b : OrderBook) (sd : String) (h : sd = "buy") :
    side_levels b sd = b.bids := by simp [side_levels, h]

theorem side_levels_eq_asks (b : OrderBook) (sd : String) (h : ¬ sd = "buy") :
    side_levels b sd = b.asks := by simp [side_levels, h]

theorem other_levels_eq_asks (b : OrderBook) (sd : String) (h : sd = "buy") :
    other_levels b sd = b.asks := by simp [other_levels, h]

theorem other_levels_eq_bids (b : OrderBook) (sd : String) (h : ¬ sd = "buy") :
    other_levels b sd = b.bids := by simp [other_levels, h]

/-! ### C4: `match` reduces the maker's size and never removes anything -/

theorem matchLevel_spec (h : Order) (t : List Order) (mid : OrderId) (sz : ℚ)
    (l2 : List Order) (hml : matchLevel h t mid sz = some l2) :
    ∃ o rest, o ∈ h :: t ∧ o.id = mid ∧
      l2 = { o with size := o.size - sz } :: rest ∧
      (o :: rest).Perm (h :: t) := by
  unfold matchLevel at hml
  by_cases hh : h.id = mid
  · rw [if_pos hh] at hml
    cases hml
    exact ⟨h, t, List.mem_cons_self h t, hh, rfl, List.Perm.refl _⟩
  · rw [if_neg hh] at hml
    cases hnews : (h :: t).filter (fun o => o.id = mid) with
    | nil => rw [hnews] at hml; cases hml
    | cons o rest0 =>
      cases rest0 with
      | nil =>
        rw [hnews] at hml
        cases hml
        have homem : o ∈ (h :: t).filter (fun o => o.id = mid) := by
          rw [hnews]; exact List.mem_cons_self o []
        rw [List.mem_filter] at homem
        refine ⟨o, (h :: t).filter (fun o => ¬ o.id = mid), homem.1,
          by simpa using homem.2, rfl, ?_⟩
        have hperm := List.filter_append_perm
          (fun o : Order => decide (o.id = mid)) (h :: t)
        have hfq : (h :: t).filter (fun o => ¬ o.id = mid) =
            (h :: t).filter (fun o => !(decide (o.id = mid))) := by
          simp [decide_not]
        have hsplit : o :: (h :: t).filter (fun o => ¬ o.id = mid) =
            (h :: t).filter (fun o : Order => decide (o.id = mid)) ++
              (h :: t).filter (fun o => !(decide (o.id = mid))) := by
          rw [hfq, hnews]
          rfl
        rw [hsplit]
        exact hperm
      | cons o2 rest1 => rw [hnews] at hml; cases hml

/-- C4. A successful `match` reduces the located maker order's size by the
traded size in place and removes nothing: the level at the traded price keeps
all its orders (the new level is a permutation of the old with the reduced
maker at the head), every other level, the opposite side, the order index,
the sequence and the ticker are untouched — even when the resulting size is
zero or negative. -/
theorem c4_match_never_removes (b b' : OrderBook) (m : Message) (sz : ℚ)
    (p : Price) (sd : String) (mid : OrderId) (l : List Order)
    (hsz : m.size = some sz) (hp : m.price = some p) (hsd : m.side = some sd)
    (hmid : m.maker_order_id = some mid)
    (hl : alist_get (side_levels b sd) p = some l) (hne : l ≠ [])
    (hrun : match_event b m = some b') :
    b'.price_dict = b.price_dict ∧ b'.sequence = b.sequence ∧
    b'.current_ticker = b.current_ticker ∧
    other_levels b' sd = other_levels b sd ∧
    (∀ q, q ≠ p →
      alist_get (side_levels b' sd) q = alist_get (side_levels b sd) q) ∧
    ∃ o rest, o ∈ l ∧ o.id = mid ∧
      alist_get (side_levels b' sd) p =
        some ({ o with size := o.size - sz } :: rest) ∧
      (o :: rest).Perm l := by
  unfold match_event at hrun
  rw [hsz, hp, hsd] at hrun
  simp only [Option.bind_eq_bind, Option.some_bind] at hrun
  by_cases hbuy : sd = "buy"
  · rw [side_levels_eq_bids b sd hbuy] at hl
    cases l with
    | nil => exact absurd rfl hne
    | cons hd t =>
      rw [if_pos hbuy, get_bids, hl, hmid] at hrun
      simp only [Option.bind_eq_bind, Option.some_bind] at hrun
      cases hml : matchLevel hd t mid sz with
      | none => rw [hml] at hrun; cases hrun
      | some l2 =>
        rw [hml] at hrun
        simp only [Option.bind_eq_bind, Option.some_bind] at hrun
        cases hrun
        obtain ⟨o, rest, hom, hoid, hl2, hperm⟩ :=
          matchLevel_spec hd t mid sz l2 hml
        subst hl2
        refine ⟨rfl, rfl, rfl, ?_, fun q hq => ?_, o, rest, hom, hoid, ?_,
          hperm⟩
        · rw [other_levels_eq_asks _ sd hbuy, other_levels_eq_asks b sd hbuy]
          rfl
        · rw [side_levels_eq_bids _ sd hbuy, side_levels_eq_bids b sd hbuy]
          exact alist_get_set_ne b.bids p q _ hq
        · rw [side_levels_eq_bids _ sd hbuy]
          exact alist_get_set_self b.bids p _
  · rw [side_levels_eq_asks b sd hbuy] at hl
    cases l with
    | nil => exact absurd rfl hne
    | cons hd t =>
      rw [if_neg hbuy, get_asks, hl, hmid] at hrun
      simp only [Option.bind_eq_bind, Option.some_bind] at hrun
      cases hml : matchLevel hd t mid sz with
      | none => rw [hml] at hrun; cases hrun
      | some l2 =>
        rw [hml] at hrun
        simp only [Option.bind_eq_bind, Option.some_bind] at hrun
        cases hrun
        obtain ⟨o, rest, hom, hoid, hl2, hperm⟩ :=
          matchLevel_spec hd t mid sz l2 hml
        subst hl2
        refine ⟨rfl, rfl, rfl, ?_, fun q hq => ?_, o, rest, hom, hoid, ?_,
          hperm⟩
        · rw [other_levels_eq_bids _ sd hbuy, other_levels_eq_bids b sd hbuy]
          rfl
        · rw [side_levels_eq_asks _ sd hbuy, side_levels_eq_asks b sd hbuy]
          exact alist_get_set_ne b.asks p q _ hq
        · rw [side_levels_eq_asks _ sd hbuy]
          exact alist_get_set_self b.asks p _

/-- C4 witness: the match of 2/5 against maker `"A"` resting in `bkA`. -/
theorem c4_match_never_removes_witness :
    bkAm.price_dict = bkA.price_dict ∧ bkAm.sequence = bkA.sequence ∧
    bkAm.current_ticker = bkA.current_ticker ∧
    other_levels bkAm "buy" = other_levels bkA "buy" ∧
    (∀ q, q ≠ 100 →
      alist_get (side_levels bkAm "buy") q =
        alist_get (side_levels bkA "buy") q) ∧
    ∃ o rest,
      o ∈ [({ id := "A", side := "buy", price := 100, size := 1 } : Order)] ∧
      o.id = "A" ∧
      alist_get (side_levels bkAm "buy") 100 =
        some ({ o with size := o.size - 2/5 } :: rest) ∧
      (o :: rest).Perm
        [({ id := "A", side := "buy", price := 100, size := 1 } : Order)] :=
  c4_match_never_removes bkA bkAm mMatchA (2/5) 100 "buy" "A"
    [{ id := "A", side := "buy", price := 100, size := 1 }]
    rfl rfl rfl rfl (by decide) (by decide) rfl

/-! ### C5: priority-violation repair -/

theorem set_side_eq_bids (b : OrderBook) (sd : String) (p : Price)
    (l : List Order) (h : sd = "buy") : set_side b sd p l = set_bids b p l := by
  simp [set_side, h]

theorem set_side_eq_asks (b : OrderBook) (sd : String) (p : Price)
    (l : List Order) (h : ¬ sd = "buy") :
    set_side b sd p l = set_asks b p l := by
  simp [set_side, h]

theorem match_event_run (b : OrderBook) (m : Message) (sz : ℚ) (p : Price)
    (sd : String) (mid : OrderId) (hd : Order) (t : List Order)
    (hsz : m.size = some sz) (hp : m.price = some p) (hsd : m.side = some sd)
    (hmid : m.maker_order_id = some mid)
    (hl : alist_get (side_levels b sd) p = some (hd :: t)) :
    match_event b m =
      (matchLevel hd t mid sz).map (fun l2 => set_side b sd p l2) := by
  unfold match_event
  rw [hsz, hp, hsd]
  simp only [Option.bind_eq_bind, Option.some_bind]
  by_cases hbuy : sd = "buy"
  · rw [side_levels_eq_bids b sd hbuy] at hl
    rw [if_pos hbuy, get_bids, hl, hmid]
    simp only [Option.bind_eq_bind, Option.some_bind]
    cases hml : matchLevel hd t mid sz with
    | none => rfl
    | some l2 =>
      simp [set_side_eq_bids b sd p l2 hbuy]
  · rw [side_levels_eq_asks b sd hbuy] at hl
    rw [if_neg hbuy, get_asks, hl, hmid]
    simp only [Option.bind_eq_bind, Option.some_bind]
    cases hml : matchLevel hd t mid sz with
    | none => rfl
    | some l2 =>
      simp [set_side_eq_asks b sd p l2 hbuy]

theorem matchLevel_repair (h : Order) (t : List Order) (mid : OrderId)
    (sz : ℚ) (hh : h.id ≠ mid) :
    (∀ o, (h :: t).filter (fun x => x.id = mid) = [o] →
      matchLevel h t mid sz =
        some ({ o with size := o.size - sz } ::
          (h :: t).filter (fun x => ¬ x.id = mid))) ∧
    (((h :: t).filter (fun x => x.id = mid)).length ≠ 1 →
      matchLevel h t mid sz = none) := by
  constructor
  · intro o ho
    unfold matchLevel
    rw [if_neg hh]
    simp only [ho]
  · intro hlen
    unfold matchLevel
    rw [if_neg hh]
    cases hft : (h :: t).filter (fun x => x.id = mid) with
    | nil => simp [hft]
    | cons o rest =>
      cases rest with
      | nil => rw [hft] at hlen; simp at hlen
      | cons o2 r2 => simp [hft]

/-- C5 (amended). When a match's maker id is not at the head of the located
level, the engine linearly scans the level's FIFO. If the maker id occurs
exactly once, that order is moved to the head — the other orders keeping
their relative order — and the match proceeds on it. If it occurs zero times
or more than once, however, the `assert len(new_bids) == 1` in the source
**fails**: event application aborts with an `AssertionError` (`none` in the
embedding) instead of skipping the event and returning the book unchanged;
the book value itself is not mutated before the assertion fires. -/
theorem c5_priority_repair (b : OrderBook) (m : Message) (sz : ℚ) (p : Price)
    (sd : String) (mid : OrderId) (hd : Order) (t : List Order)
    (hsz : m.size = some sz) (hp : m.price = some p) (hsd : m.side = some sd)
    (hmid : m.maker_order_id = some mid)
    (hl : alist_get (side_levels b sd) p = some (hd :: t))
    (hhead : hd.id ≠ mid) :
    (∀ o, (hd :: t).filter (fun x => x.id = mid) = [o] →
      match_event b m =
        some (set_side b sd p ({ o with size := o.size - sz } ::
          (hd :: t).filter (fun x => ¬ x.id = mid)))) ∧
    (((hd :: t).filter (fun x => x.id = mid)).length ≠ 1 →
      match_event b m = none) := by
  have hrun := match_event_run b m sz p sd mid hd t hsz hp hsd hmid hl
  obtain ⟨hone, hbad⟩ := matchLevel_repair hd t mid sz hhead
  constructor
  · intro o ho
    rw [hrun, hone o ho]
    rfl
  · intro hlen
    rw [hrun, hbad hlen]
    rfl

/-- C5 counterexample: in `bkXA` there is no order `"B"` at all, so a match
naming maker `"B"` hits the zero-occurrence branch of the repair; the claim
says the event is "skipped ... without crashing and without mutating the
book" (result `some bkXA`), but the source's `assert len(new_bids) == 1`
raises, i.e. the embedded `match` returns `none`. -/
theorem c5_priority_repair_counterexample :
    match_event bkXA mMatchB = none ∧
    ¬ match_event bkXA mMatchB = some bkXA := by
  constructor
  · decide
  · decide

/-- C5 witness: in `bkXA`, maker `"A"` is second in the FIFO; the repair
moves it to the head, keeps `"X"` after it, and the match proceeds. -/
theorem c5_priority_repair_witness :
    (∀ o : Order,
      [({ id := "X", side := "buy", price := 100, size := 2 } : Order),
       { id := "A", side := "buy", price := 100, size := 1 }].filter
          (fun x => x.id = "A") = [o] →
      match_event bkXA mMatchA1 =
        some (set_side bkXA "buy" 100 ({ o with size := o.size - 1 } ::
          [({ id := "X", side := "buy", price := 100, size := 2 } : Order),
           { id := "A", side := "buy", price := 100, size := 1 }].filter
              (fun x => ¬ x.id = "A")))) ∧
    (([({ id := "X", side := "buy", price := 100, size := 2 } : Order),
       { id := "A", side := "buy", price := 100, size := 1 }].filter
          (fun x => x.id = "A")).length ≠ 1 →
      match_event bkXA mMatchA1 = none) :=
  c5_priority_repair bkXA mMatchA1 1 100 "buy" "A"
    { id := "X", side := "buy", price := 100, size := 2 }
    [{ id := "A", side := "buy", price := 100, size := 1 }]
    rfl rfl rfl rfl (by decide) (by decide)

/-! ### C6: a re-pricing `change` adds back only when the removal found -/

/-- C6. A `change` carrying `new_price` first attempts
`remove(side, id, old_price)`. An order with the new price and size is added
exactly when that removal reported found; and on a book whose index and
level at the old price do not know the id at all (the claim's "order not
currently resting" scenario, on a consistent book), the removal reports
found = false without mutating anything and the whole amendment is a no-op:
the book and order index are left exactly as they were. -/
theorem c6_change_reprice_conditional (b : OrderBook) (m : Message)
    (nsz : ℚ) (np op : Price) (sd : String) (oid : OrderId)
    (hnsz : m.new_size = some nsz) (hnp : m.new_price = some np)
    (hop : m.old_price = some op) (hsd : m.side = some sd)
    (hoid : m.order_id = some oid) (hid : oid ≠ "") (hsz0 : nsz ≠ 0) :
    (∀ b1, remove b (chgRmMsg sd oid op nsz) = some (b1, true) →
      ∃ b2, change b m = some b2 ∧
        pd_lookup b2.price_dict oid = some np ∧
        ∃ l, alist_get (side_levels b2 sd) np = some l ∧
          ({ id := oid, side := sd, price := np, size := nsz } : Order) ∈ l) ∧
    (∀ b1, remove b (chgRmMsg sd oid op nsz) = some (b1, false) →
      change b m = some b1) ∧
    (pd_lookup b.price_dict oid = none →
      keysSorted (side_levels b sd) →
      (∀ l, alist_get (side_levels b sd) op = some l →
        l ≠ [] ∧ ∀ x ∈ l, x.id ≠ oid) →
      remove b (chgRmMsg sd oid op nsz) = some (b, false) ∧
      change b m = some b) := by
  have hconj2 : ∀ b1, remove b (chgRmMsg sd oid op nsz) = some (b1, false) →
      change b m = some b1 := by
    intro b1 h1
    unfold change
    rw [hnsz, hnp, hop, hsd, hoid]
    simp only [Option.bind_eq_bind, Option.some_bind]
    rw [h1]
    simp
  have hconj1 : ∀ b1, remove b (chgRmMsg sd oid op nsz) = some (b1, true) →
      ∃ b2, change b m = some b2 ∧
        pd_lookup b2.price_dict oid = some np ∧
        ∃ l, alist_get (side_levels b2 sd) np = some l ∧
          ({ id := oid, side := sd, price := np, size := nsz } : Order) ∈ l := by
    intro b1 h1
    have hch : change b m = add b1 (chgAddMsg sd oid np nsz) := by
      unfold change
      rw [hnsz, hnp, hop, hsd, hoid]
      simp only [Option.bind_eq_bind, Option.some_bind]
      rw [h1]
      simp
    rw [hch]
    unfold add
    have hoid2 : pyOrStr (chgAddMsg sd oid np nsz).order_id
        (chgAddMsg sd oid np nsz).id = some oid := by
      simp [chgAddMsg, emptyMsg, pyOrStr, hid]
    have hsz2 : pyOrQ (chgAddMsg sd oid np nsz).size
        (chgAddMsg sd oid np nsz).remaining_size = some nsz := by
      simp [chgAddMsg, emptyMsg, pyOrQ, hsz0]
    rw [hoid2]
    simp only [chgAddMsg, emptyMsg, Option.bind_eq_bind, Option.some_bind]
    rw [show pyOrQ (some nsz) none = some nsz from by simp [pyOrQ, hsz0]]
    simp only [Option.bind_eq_bind, Option.some_bind]
    by_cases hbuy : sd = "buy"
    · rw [if_pos hbuy]
      refine ⟨_, rfl, pd_lookup_set_self _ _ _, ?_⟩
      rw [side_levels_eq_bids _ sd hbuy]
      refine ⟨_, alist_get_set_self b1.bids np _, ?_⟩
      cases hg : get_bids b1 np with
      | none => simp
      | some l0 => simp
    · rw [if_neg hbuy]
      refine ⟨_, rfl, pd_lookup_set_self _ _ _, ?_⟩
      rw [side_levels_eq_asks _ sd hbuy]
      refine ⟨_, alist_get_set_self b1.asks np _, ?_⟩
      cases hg : get_asks b1 np with
      | none => simp
      | some l0 => simp
  refine ⟨hconj1, hconj2, fun hpd hsort hlvl => ?_⟩
  have hrm : remove b (chgRmMsg sd oid op nsz) = some (b, false) := by
    unfold remove
    have e1 : (chgRmMsg sd oid op nsz).order_id = some oid := rfl
    have e2 : (chgRmMsg sd oid op nsz).price = some op := rfl
    have e3 : (chgRmMsg sd oid op nsz).side = some sd := rfl
    rw [e1, e2, e3]
    simp only [Option.bind_eq_bind, Option.some_bind, hpd]
    by_cases hbuy : sd = "buy"
    · rw [side_levels_eq_bids b sd hbuy] at hsort hlvl
      rw [if_pos hbuy]
      cases hg : get_bids b op with
      | none => rfl
      | some l =>
        obtain ⟨hl0, hlid⟩ := hlvl l hg
        have hany : l.any (fun o => o.id = oid) = false := by
          simp only [List.any_eq_false]
          intro x hx
          simpa using hlid x hx
        have hfil : l.filter (fun o => ¬ o.id = oid) = l := by
          rw [List.filter_eq_self]
          intro x hx
          simpa using hlid x hx
        simp only [hany, hfil]
        rw [if_pos (List.length_pos.mpr hl0)]
        simp only [set_bids]
        rw [alist_set_self_of_get b.bids op l hsort hg]
    · rw [side_levels_eq_asks b sd hbuy] at hsort hlvl
      rw [if_neg hbuy]
      cases hg : get_asks b op with
      | none => rfl
      | some l =>
        obtain ⟨hl0, hlid⟩ := hlvl l hg
        have hany : l.any (fun o => o.id = oid) = false := by
          simp only [List.any_eq_false]
          intro x hx
          simpa using hlid x hx
        have hfil : l.filter (fun o => ¬ o.id = oid) = l := by
          rw [List.filter_eq_self]
          intro x hx
          simpa using hlid x hx
        simp only [hany, hfil]
        rw [if_pos (List.length_pos.mpr hl0)]
        simp only [set_asks]
        rw [alist_set_self_of_get b.asks op l hsort hg]
  exact ⟨hrm, hconj2 b hrm⟩

/-- C6 witness: the re-pricing `change` of the absent order `"Z"` against
`bkA` mutates nothing: the removal reports found = false and the amendment
is discarded with the book exactly as before. -/
theorem c6_change_reprice_conditional_witness :
    (∀ b1, remove bkA (chgRmMsg "buy" "Z" 100 1) = some (b1, true) →
      ∃ b2, change bkA mChgZ = some b2 ∧
        pd_lookup b2.price_dict "Z" = some 101 ∧
        ∃ l, alist_get (side_levels b2 "buy") 101 = some l ∧
          ({ id := "Z", side := "buy", price := 101, size := 1 } : Order) ∈ l) ∧
    (∀ b1, remove bkA (chgRmMsg "buy" "Z" 100 1) = some (b1, false) →
      change bkA mChgZ = some b1) ∧
    (pd_lookup bkA.price_dict "Z" = none →
      keysSorted (side_levels bkA "buy") →
      (∀ l, alist_get (side_levels bkA "buy") 100 = some l →
        l ≠ [] ∧ ∀ x ∈ l, x.id ≠ "Z") →
      remove bkA (chgRmMsg "buy" "Z" 100 1) = some (bkA, false) ∧
      change bkA mChgZ = some bkA) :=
  c6_change_reprice_conditional bkA mChgZ 1 101 100 "buy" "Z"
    rfl rfl rfl rfl rfl (by decide) (by decide)

/-! ### C7: `add` then `remove` is an inverse -/

/-- C7 counterexample: on a book whose index already holds the order's id
(`"A"` rests at 5), `add`ing a second `"A"` at 6 and `remove`-ing it again
returns found = true but does **not** restore the order index: the
pre-existing entry `("A", 5)` is wiped, so the claim fails "on any book
state". -/
theorem c7_add_remove_inverse_counterexample :
    (add bkA5 (orderMsg oA6)).bind (fun b1 => remove b1 (rmvMsg oA6)) =
      some ({ bkA5 with price_dict := [] }, true) ∧
    ({ bkA5 with price_dict := [] } : OrderBook) ≠ bkA5 := by
  constructor
  · decide
  · decide

theorem add_orderMsg_buy_new (b : OrderBook) (o : Order) (hid : o.id ≠ "")
    (hsz : o.size ≠ 0) (hbuy : o.side = "buy")
    (hg : alist_get b.bids o.price = none) :
    add b (orderMsg o) =
      some { b with bids := alist_set b.bids o.price [o],
                    price_dict := pd_set b.price_dict o.id o.price } := by
  unfold add
  have e1 : pyOrStr (orderMsg o).order_id (orderMsg o).id = some o.id := by
    simp [orderMsg, emptyMsg, pyOrStr, hid]
  have e4 : pyOrQ (orderMsg o).size (orderMsg o).remaining_size =
      some o.size := by
    simp [orderMsg, emptyMsg, pyOrQ, hsz]
  rw [e1]
  simp only [Option.bind_eq_bind, Option.some_bind]
  rw [e4]
  simp only [Option.bind_eq_bind, Option.some_bind, orderMsg, emptyMsg]
  rw [if_pos hbuy]
  rw [get_bids, hg]
  rfl

theorem add_orderMsg_buy_app (b : OrderBook) (o : Order) (l0 : List Order)
    (hid : o.id ≠ "") (hsz : o.size ≠ 0) (hbuy : o.side = "buy")
    (hg : alist_get b.bids o.price = some l0) :
    add b (orderMsg o) =
      some { b with bids := alist_set b.bids o.price (l0 ++ [o]),
                    price_dict := pd_set b.price_dict o.id o.price } := by
  unfold add
  have e1 : pyOrStr (orderMsg o).order_id (orderMsg o).id = some o.id := by
    simp [orderMsg, emptyMsg, pyOrStr, hid]
  have e4 : pyOrQ (orderMsg o).size (orderMsg o).remaining_size =
      some o.size := by
    simp [orderMsg, emptyMsg, pyOrQ, hsz]
  rw [e1]
  simp only [Option.bind_eq_bind, Option.some_bind]
  rw [e4]
  simp only [Option.bind_eq_bind, Option.some_bind, orderMsg, emptyMsg]
  rw [if_pos hbuy]
  rw [get_bids, hg]
  rfl

theorem add_orderMsg_sell_new (b : OrderBook) (o : Order) (hid : o.id ≠ "")
    (hsz : o.size ≠ 0) (hbuy : ¬ o.side = "buy")
    (hg : alist_get b.asks o.price = none) :
    add b (orderMsg o) =
      some { b with asks := alist_set b.asks o.price [o],
                    price_dict := pd_set b.price_dict o.id o.price } := by
  unfold add
  have e1 : pyOrStr (orderMsg o).order_id (orderMsg o).id = some o.id := by
    simp [orderMsg, emptyMsg, pyOrStr, hid]
  have e4 : pyOrQ (orderMsg o).size (orderMsg o).remaining_size =
      some o.size := by
    simp [orderMsg, emptyMsg, pyOrQ, hsz]
  rw [e1]
  simp only [Option.bind_eq_bind, Option.some_bind]
  rw [e4]
  simp only [Option.bind_eq_bind, Option.some_bind, orderMsg, emptyMsg]
  rw [if_neg hbuy]
  rw [get_asks, hg]
  rfl

theorem add_orderMsg_sell_app (b : OrderBook) (o : Order) (l0 : List Order)
    (hid : o.id ≠ "") (hsz : o.size ≠ 0) (hbuy : ¬ o.side = "buy")
    (hg : alist_get b.asks o.price = some l0) :
    add b (orderMsg o) =
      some { b with asks := alist_set b.asks o.price (l0 ++ [o]),
                    price_dict := pd_set b.price_dict o.id o.price } := by
  unfold add
  have e1 : pyOrStr (orderMsg o).order_id (orderMsg o).id = some o.id := by
    simp [orderMsg, emptyMsg, pyOrStr, hid]
  have e4 : pyOrQ (orderMsg o).size (orderMsg o).remaining_size =
      some o.size := by
    simp [orderMsg, emptyMsg, pyOrQ, hsz]
  rw [e1]
  simp only [Option.bind_eq_bind, Option.some_bind]
  rw [e4]
  simp only [Option.bind_eq_bind, Option.some_bind, orderMsg, emptyMsg]
  rw [if_neg hbuy]
  rw [get_asks, hg]
  rfl

/-- C7 (amended). For an order O whose id is not yet in the order index, on a
book whose level at `(O.side, O.price)` — if present — is sorted, non-empty
and free of O's id, `add(O)` followed by
`remove(O.side, O.id, O.price)` restores the book (levels and index) exactly
and the removal returns found = true. (The id-freshness hypothesis is
necessary: see the counterexample.) -/
theorem c7_add_remove_inverse (b : OrderBook) (o : Order)
    (hid : o.id ≠ "") (hsz : o.size ≠ 0)
    (hpd : pd_lookup b.price_dict o.id = none)
    (hsort : keysSorted (side_levels b o.side))
    (hlvl : ∀ l, alist_get (side_levels b o.side) o.price = some l →
      l ≠ [] ∧ ∀ x ∈ l, x.id ≠ o.id) :
    ∃ b1, add b (orderMsg o) = some b1 ∧
      remove b1 (rmvMsg o) = some (b, true) := by
  have f1 : (rmvMsg o).order_id = some o.id := rfl
  have f2 : (rmvMsg o).price = some o.price := rfl
  have f3 : (rmvMsg o).side = some o.side := rfl
  have hpdx : pd_lookup (pd_set b.price_dict o.id o.price) o.id =
      some o.price := pd_lookup_set_self _ _ _
  have hpdd : pd_del (pd_set b.price_dict o.id o.price) o.id =
      b.price_dict := pd_del_set_fresh _ _ _ hpd
  by_cases hbuy : o.side = "buy"
  · rw [side_levels_eq_bids b o.side hbuy] at hsort hlvl
    cases hg : alist_get b.bids o.price with
    | none =>
      refine ⟨_, add_orderMsg_buy_new b o hid hsz hbuy hg, ?_⟩
      unfold remove
      rw [f1, f2, f3]
      simp only [Option.bind_eq_bind, Option.some_bind, hpdx, hpdd]
      rw [if_pos hbuy]
      simp only [get_bids, alist_get_set_self]
      have hfil : ([o] : List Order).filter (fun x => ¬ x.id = o.id) = [] := by
        simp
      have hany : ([o] : List Order).any (fun x => x.id = o.id) = true := by
        simp
      rw [hfil, hany]
      simp only [List.length_nil, gt_iff_lt, lt_irrefl, if_false]
      simp only [remove_bids]
      rw [alist_del_set_fresh b.bids o.price _ hg]
    | some l0 =>
      obtain ⟨hl0, hlid⟩ := hlvl l0 hg
      refine ⟨_, add_orderMsg_buy_app b o l0 hid hsz hbuy hg, ?_⟩
      unfold remove
      rw [f1, f2, f3]
      simp only [Option.bind_eq_bind, Option.some_bind, hpdx, hpdd]
      rw [if_pos hbuy]
      simp only [get_bids, alist_get_set_self]
      have hfil : ((l0 ++ [o]) : List Order).filter
          (fun x => ¬ x.id = o.id) = l0 := by
        rw [List.filter_append]
        have h1 : l0.filter (fun x => ¬ x.id = o.id) = l0 := by
          rw [List.filter_eq_self]
          intro x hx
          simpa using hlid x hx
        have h2 : ([o] : List Order).filter (fun x => ¬ x.id = o.id) = [] := by
          simp
        rw [h1, h2, List.append_nil]
      have hany : ((l0 ++ [o]) : List Order).any
          (fun x => x.id = o.id) = true := by simp
      rw [hfil, hany]
      rw [if_pos (List.length_pos.mpr hl0)]
      simp only [set_bids]
      rw [alist_set_set b.bids o.price _ l0,
        alist_set_self_of_get b.bids o.price l0 hsort hg]
  · rw [side_levels_eq_asks b o.side hbuy] at hsort hlvl
    cases hg : alist_get b.asks o.price with
    | none =>
      refine ⟨_, add_orderMsg_sell_new b o hid hsz hbuy hg, ?_⟩
      unfold remove
      rw [f1, f2, f3]
      simp only [Option.bind_eq_bind, Option.some_bind, hpdx, hpdd]
      rw [if_neg hbuy]
      simp only [get_asks, alist_get_set_self]
      have hfil : ([o] : List Order).filter (fun x => ¬ x.id = o.id) = [] := by
        simp
      have hany : ([o] : List Order).any (fun x => x.id = o.id) = true := by
        simp
      rw [hfil, hany]
      simp only [List.length_nil, gt_iff_lt, lt_irrefl, if_false]
      simp only [remove_asks]
      rw [alist_del_set_fresh b.asks o.price _ hg]
    | some l0 =>
      obtain ⟨hl0, hlid⟩ := hlvl l0 hg
      refine ⟨_, add_orderMsg_sell_app b o l0 hid hsz hbuy hg, ?_⟩
      unfold remove
      rw [f1, f2, f3]
      simp only [Option.bind_eq_bind, Option.some_bind, hpdx, hpdd]
      rw [if_neg hbuy]
      simp only [get_asks, alist_get_set_self]
      have hfil : ((l0 ++ [o]) : List Order).filter
          (fun x => ¬ x.id = o.id) = l0 := by
        rw [List.filter_append]
        have h1 : l0.filter (fun x => ¬ x.id = o.id) = l0 := by
          rw [List.filter_eq_self]
          intro x hx
          simpa using hlid x hx
        have h2 : ([o] : List Order).filter (fun x => ¬ x.id = o.id) = [] := by
          simp
        rw [h1, h2, List.append_nil]
      have hany : ((l0 ++ [o]) : List Order).any
          (fun x => x.id = o.id) = true := by simp
      rw [hfil, hany]
      rw [if_pos (List.length_pos.mpr hl0)]
      simp only [set_asks]
      rw [alist_set_set b.asks o.price _ l0,
        alist_set_self_of_get b.asks o.price l0 hsort hg]

/-- C7 witness: adding a fresh `"B"` next to `"A"` in `bkA` and removing it
again restores `bkA` exactly, with found = true. -/
theorem c7_add_remove_inverse_witness :
    ∃ b1, add bkA (orderMsg oB) = some b1 ∧
      remove b1 (rmvMsg oB) = some (bkA, true) :=
  c7_add_remove_inverse bkA oB (by decide) (by decide) (by decide)
    (by decide)
    (by
      intro l hl
      have hx : alist_get (side_levels bkA oB.side) oB.price =
          some [{ id := "A", side := "buy", price := 100, size := 1 }] := by
        decide
      rw [hx] at hl
      cases hl
      exact ⟨by decide, by decide⟩)

/-! ### C1: the index consistency invariant -/

/-- C1 counterexample: from a fresh instance, an empty snapshot load (any
first message triggers it) followed by the accepted events
`open "A"@100` (sequence 1) and `open "A"@101` (sequence 2) reaches `bkDup`,
a state in which order `"A"` rests at price 100 while the index maps `"A"`
to 101 — the claim's "indexed price equals the resting order's stored
price" fails on a state reachable by snapshot loads and accepted events. -/
theorem c1_index_consistency_counterexample :
    ReachableRaw bkDup ∧
    Rests bkDup { id := "A", side := "buy", price := 100, size := 1 } ∧
    pd_lookup bkDup.price_dict "A" = some 101 ∧ (101 : Price) ≠ 100 := by
  refine ⟨?_, ?_, by decide, by decide⟩
  · have h0 : on_message snap0 initBook emptyMsg = some bk0 := by decide
    have h1 : on_message snap0 bk0 (mOpenA 100 1) = some bk1 := by decide
    have h2 : on_message snap0 bk1 (mOpenA 101 2) = some bkDup := by decide
    exact ReachableRaw.step (ReachableRaw.step
      (ReachableRaw.step ReachableRaw.init h0) h1) h2
  · exact Or.inl ⟨100,
      [{ id := "A", side := "buy", price := 100, size := 1 }],
      by decide, by decide⟩

theorem alist_get_mem {α : Type} (m : List (Price × α)) (p : Price) (v : α)
    (h : alist_get m p = some v) : (p, v) ∈ m := by
  induction m with
  | nil => simp [alist_get] at h
  | cons hd t ih =>
    obtain ⟨q, w⟩ := hd
    by_cases hpq : p = q
    · subst hpq
      simp [alist_get] at h
      simp [h]
    · simp [alist_get, hpq] at h
      exact List.mem_cons_of_mem _ (ih h)


theorem alist_get_of_mem_sorted {α : Type} (m : List (Price × α)) (p : Price)
    (v : α) (hs : keysSorted m) (h : (p, v) ∈ m) : alist_get m p = some v := by
  induction m with
  | nil => simp at h
  | cons hd t ih =>
    obtain ⟨q, w⟩ := hd
    rw [keysSorted, List.map_cons, List.pairwise_cons] at hs
    rcases List.mem_cons.mp h with h1 | h1
    · injection h1 with e1 e2
      subst e1
      subst e2
      simp [alist_get]
    · have hpt : p ∈ t.map Prod.fst := List.mem_map.mpr ⟨(p, v), h1, rfl⟩
      have hqp : q < p := hs.1 p hpt
      have hne : ¬ p = q := fun e => absurd (e ▸ hqp) (lt_irrefl p)
      simp only [alist_get, if_neg hne]
      exact ih hs.2 h1

theorem mem_alist_set_elim {α : Type} {m : List (Price × α)} {p q : Price}
    {v l : α} (h : (q, l) ∈ alist_set m p v) :
    (q = p ∧ l = v) ∨ (q, l) ∈ m := by
  induction m with
  | nil =>
    simp [alist_set] at h
    exact Or.inl ⟨h.1, h.2⟩
  | cons hd t ih =>
    obtain ⟨r, w⟩ := hd
    by_cases hpr : p = r
    · subst hpr
      simp only [alist_set, if_pos rfl] at h
      rcases List.mem_cons.mp h with h1 | h1
      · injection h1 with e1 e2
        exact Or.inl ⟨e1, e2⟩
      · exact Or.inr (List.mem_cons_of_mem _ h1)
    · by_cases hlt : p < r
      · simp only [alist_set, if_neg hpr, if_pos hlt] at h
        rcases List.mem_cons.mp h with h1 | h1
        · injection h1 with e1 e2
          exact Or.inl ⟨e1, e2⟩
        · exact Or.inr h1
      · simp only [alist_set, if_neg hpr, if_neg hlt] at h
        rcases List.mem_cons.mp h with h1 | h1
        · exact Or.inr (List.mem_cons.mpr (Or.inl h1))
        · rcases ih h1 with h2 | h2
          · exact Or.inl h2
          · exact Or.inr (List.mem_cons_of_mem _ h2)

theorem mem_alist_set_self {α : Type} (m : List (Price × α)) (p : Price)
    (v : α) : (p, v) ∈ alist_set m p v := by
  induction m with
  | nil => simp [alist_set]
  | cons hd t ih =>
    obtain ⟨r, w⟩ := hd
    by_cases hpr : p = r
    · simp [alist_set, hpr]
    · by_cases hlt : p < r
      · simp [alist_set, hpr, hlt]
      · simp only [alist_set, if_neg hpr, if_neg hlt]
        exact List.mem_cons_of_mem _ ih

theorem mem_alist_set_of_mem {α : Type} {m : List (Price × α)} {p q : Price}
    {v l : α} (h : (q, l) ∈ m) (hne : q ≠ p) : (q, l) ∈ alist_set m p v := by
  induction m with
  | nil => simp at h
  | cons hd t ih =>
    obtain ⟨r, w⟩ := hd
    rcases List.mem_cons.mp h with h1 | h1
    · injection h1 with e1 e2
      subst e1
      subst e2
      have hpr : ¬ p = q := fun e => hne e.symm
      by_cases hlt : p < q
      · simp [alist_set, hpr, hlt]
      · simp only [alist_set, if_neg hpr, if_neg hlt]
        exact List.mem_cons_self _ _
    · by_cases hpr : p = r
      · subst hpr
        simp only [alist_set, if_pos rfl]
        exact List.mem_cons_of_mem _ h1
      · by_cases hlt : p < r
        · simp only [alist_set, if_neg hpr, if_pos hlt]
          exact List.mem_cons_of_mem _ (List.mem_cons_of_mem _ h1)
        · simp only [alist_set, if_neg hpr, if_neg hlt]
          exact List.mem_cons_of_mem _ (ih h1)

theorem mem_alist_del_elim {α : Type} {m : List (Price × α)} {p q : Price}
    {l : α} (h : (q, l) ∈ alist_del m p) : (q, l) ∈ m ∧ q ≠ p := by
  induction m with
  | nil => simp [alist_del] at h
  | cons hd t ih =>
    obtain ⟨r, w⟩ := hd
    by_cases hpr : p = r
    · subst hpr
      simp only [alist_del, if_pos rfl] at h
      obtain ⟨h1, h2⟩ := ih h
      exact ⟨List.mem_cons_of_mem _ h1, h2⟩
    · simp only [alist_del, if_neg hpr] at h
      rcases List.mem_cons.mp h with h1 | h1
      · injection h1 with e1 e2
        subst e1
        subst e2
        exact ⟨List.mem_cons_self _ _, fun e => hpr e.symm⟩
      · obtain ⟨h2, h3⟩ := ih h1
        exact ⟨List.mem_cons_of_mem _ h2, h3⟩

theorem mem_alist_del_of_mem {α : Type} {m : List (Price × α)} {p q : Price}
    {l : α} (h : (q, l) ∈ m) (hne : q ≠ p) : (q, l) ∈ alist_del m p := by
  induction m with
  | nil => simp at h
  | cons hd t ih =>
    obtain ⟨r, w⟩ := hd
    by_cases hpr : p = r
    · subst hpr
      simp only [alist_del, if_pos rfl]
      rcases List.mem_cons.mp h with h1 | h1
      · injection h1 with e1 e2
        exact absurd e1 hne
      · exact ih h1
    · simp only [alist_del, if_neg hpr]
      rcases List.mem_cons.mp h with h1 | h1
      · exact List.mem_cons.mpr (Or.inl h1)
      · exact List.mem_cons_of_mem _ (ih h1)

theorem alist_set_keys_subset {α : Type} {m : List (Price × α)} {p k : Price}
    {v : α} (h : k ∈ (alist_set m p v).map Prod.fst) :
    k = p ∨ k ∈ m.map Prod.fst := by
  obtain ⟨⟨q, l⟩, hmem, he⟩ := List.mem_map.mp h
  cases he
  rcases mem_alist_set_elim hmem with h1 | h1
  · exact Or.inl h1.1
  · exact Or.inr (List.mem_map.mpr ⟨(q, l), h1, rfl⟩)

theorem alist_set_keysSorted {α : Type} (m : List (Price × α)) (p : Price)
    (v : α) (hs : keysSorted m) : keysSorted (alist_set m p v) := by
  induction m with
  | nil =>
    simp [alist_set, keysSorted]
  | cons hd t ih =>
    obtain ⟨q, w⟩ := hd
    rw [keysSorted, List.map_cons, List.pairwise_cons] at hs
    by_cases hpq : p = q
    · simp only [alist_set]
      rw [if_pos hpq]
      subst hpq
      simp only [keysSorted, List.map_cons, List.pairwise_cons]
      exact ⟨hs.1, hs.2⟩
    · by_cases hlt : p < q
      · simp only [alist_set]
        rw [if_neg hpq, if_pos hlt]
        simp only [keysSorted, List.map_cons, List.pairwise_cons]
        refine ⟨?_, hs.1, hs.2⟩
        intro k hk
        rcases List.mem_cons.mp hk with h1 | h1
        · exact h1 ▸ hlt
        · exact lt_trans hlt (hs.1 k h1)
      · simp only [alist_set]
        rw [if_neg hpq, if_neg hlt]
        simp only [keysSorted, List.map_cons, List.pairwise_cons]
        refine ⟨?_, ih hs.2⟩
        intro k hk
        rcases alist_set_keys_subset hk with h1 | h1
        · subst h1
          exact lt_of_le_of_ne (not_lt.mp hlt) (fun e => hpq e.symm)
        · exact hs.1 k h1

theorem alist_del_sublist {α : Type} (m : List (Price × α)) (p : Price) :
    (alist_del m p).Sublist m := by
  induction m with
  | nil => simp [alist_del]
  | cons hd t ih =>
    obtain ⟨q, w⟩ := hd
    by_cases hpq : p = q
    · simp only [alist_del, if_pos hpq]
      exact ih.cons _
    · simp only [alist_del, if_neg hpq]
      exact ih.cons₂ _

theorem alist_del_keysSorted {α : Type} (m : List (Price × α)) (p : Price)
    (hs : keysSorted m) : keysSorted (alist_del m p) :=
  List.Pairwise.sublist ((alist_del_sublist m p).map Prod.fst) hs

theorem pd_set_keys_subset {m : List (OrderId × Price)} {i k : OrderId}
    {p : Price} (h : k ∈ (pd_set m i p).map Prod.fst) :
    k = i ∨ k ∈ m.map Prod.fst := by
  induction m with
  | nil =>
    simp [pd_set] at h
    exact Or.inl h
  | cons hd t ih =>
    obtain ⟨j, q⟩ := hd
    by_cases hij : i = j
    · subst hij
      simp only [pd_set, if_pos rfl, List.map_cons] at h
      rcases List.mem_cons.mp h with h1 | h1
      · exact Or.inl h1
      · exact Or.inr (List.mem_cons_of_mem _ h1)
    · simp only [pd_set, if_neg hij, List.map_cons] at h
      rcases List.mem_cons.mp h with h1 | h1
      · exact Or.inr (h1 ▸ List.mem_cons_self _ _)
      · rcases ih h1 with h2 | h2
        · exact Or.inl h2
        · exact Or.inr (List.mem_cons_of_mem _ h2)

theorem pd_set_nodup (m : List (OrderId × Price)) (i : OrderId) (p : Price)
    (h : (m.map Prod.fst).Nodup) : ((pd_set m i p).map Prod.fst).Nodup := by
  induction m with
  | nil => simp [pd_set]
  | cons hd t ih =>
    obtain ⟨j, q⟩ := hd
    rw [List.map_cons, List.nodup_cons] at h
    by_cases hij : i = j
    · simp only [pd_set]
      rw [if_pos hij]
      subst hij
      simp only [List.map_cons, List.nodup_cons]
      exact ⟨h.1, h.2⟩
    · simp only [pd_set, if_neg hij, List.map_cons, List.nodup_cons]
      refine ⟨?_, ih h.2⟩
      intro hj
      rcases pd_set_keys_subset hj with h1 | h1
      · exact hij h1.symm
      · exact h.1 h1

theorem pd_del_sublist (m : List (OrderId × Price)) (i : OrderId) :
    (pd_del m i).Sublist m := by
  induction m with
  | nil => simp [pd_del]
  | cons hd t ih =>
    obtain ⟨j, q⟩ := hd
    by_cases hij : i = j
    · simp only [pd_del, if_pos hij]
      exact ih.cons _
    · simp only [pd_del, if_neg hij]
      exact ih.cons₂ _

theorem pd_del_nodup (m : List (OrderId × Price)) (i : OrderId)
    (h : (m.map Prod.fst).Nodup) : ((pd_del m i).map Prod.fst).Nodup :=
  List.Nodup.sublist ((pd_del_sublist m i).map Prod.fst) h

theorem mem_sideOrders {m : List (Price × List Order)} {o : Order} :
    o ∈ sideOrders m ↔ RestsIn m o := by
  induction m with
  | nil => simp [sideOrders, RestsIn]
  | cons hd t ih =>
    obtain ⟨q, w⟩ := hd
    simp only [sideOrders, List.foldr_cons, List.mem_append] at *
    constructor
    · rintro (h | h)
      · exact ⟨q, w, List.mem_cons_self _ _, h⟩
      · obtain ⟨p, l, h1, h2⟩ := ih.mp h
        exact ⟨p, l, List.mem_cons_of_mem _ h1, h2⟩
    · rintro ⟨p, l, h1, h2⟩
      rcases List.mem_cons.mp h1 with h3 | h3
      · injection h3 with e1 e2
        subst e1
        subst e2
        exact Or.inl h2
      · exact Or.inr (ih.mpr ⟨p, l, h3, h2⟩)

theorem restsIn_of_get {m : List (Price × List Order)} {p : Price}
    {l : List Order} {x : Order} (hg : alist_get m p = some l) (hx : x ∈ l) :
    RestsIn m x :=
  ⟨p, l, alist_get_mem _ _ _ hg, hx⟩

theorem inv_insert_bids (b : OrderBook) (o : Order) (L : List Order)
    (hinv : BookInv b) (hfresh : ∀ x, Rests b x → x.id ≠ o.id)
    (hL : (alist_get b.bids o.price = none ∧ L = [o]) ∨
          (∃ l0, alist_get b.bids o.price = some l0 ∧ L = l0 ++ [o])) :
    BookInv { b with bids := alist_set b.bids o.price L,
                     price_dict := pd_set b.price_dict o.id o.price } := by
  have hmemL : ∀ x ∈ L, x = o ∨
      (RestsIn b.bids x ∧ x.price = o.price) := by
    intro x hx
    rcases hL with ⟨hg, rfl⟩ | ⟨l0, hg, rfl⟩
    · rcases List.mem_singleton.mp hx with rfl
      exact Or.inl rfl
    · rcases List.mem_append.mp hx with h1 | h1
      · exact Or.inr ⟨restsIn_of_get hg h1,
          hinv.bids_inv.keyed o.price l0 x (alist_get_mem _ _ _ hg) h1⟩
      · exact Or.inl (List.mem_singleton.mp h1)
  have hoL : o ∈ L := by
    rcases hL with ⟨_, rfl⟩ | ⟨l0, _, rfl⟩
    · exact List.mem_singleton.mpr rfl
    · exact List.mem_append.mpr (Or.inr (List.mem_singleton.mpr rfl))
  refine ⟨⟨?_, ?_, ?_⟩, hinv.asks_inv, ?_, ?_, ?_⟩
  · exact alist_set_keysSorted _ _ _ hinv.bids_inv.sorted
  · intro p l hm
    rcases mem_alist_set_elim hm with ⟨hq, rfl⟩ | hm2
    · rcases hL with ⟨_, rfl⟩ | ⟨l0, _, rfl⟩ <;> simp
    · exact hinv.bids_inv.nonempty p l hm2
  · intro p l x hm hx
    rcases mem_alist_set_elim hm with ⟨rfl, rfl⟩ | hm2
    · rcases hmemL x hx with rfl | ⟨_, hp⟩
      · rfl
      · exact hp
    · exact hinv.bids_inv.keyed p l x hm2 hx
  · intro x hx
    have hcase : x = o ∨ (Rests b x ∧ x.id ≠ o.id) := by
      rcases hx with ⟨p, l, hm, hxl⟩ | hask
      · rcases mem_alist_set_elim hm with ⟨rfl, rfl⟩ | hm2
        · rcases hmemL x hxl with rfl | ⟨hr, _⟩
          · exact Or.inl rfl
          · exact Or.inr ⟨Or.inl hr, hfresh x (Or.inl hr)⟩
        · have hr : Rests b x := Or.inl ⟨p, l, hm2, hxl⟩
          exact Or.inr ⟨hr, hfresh x hr⟩
      · have hr : Rests b x := Or.inr hask
        exact Or.inr ⟨hr, hfresh x hr⟩
    rcases hcase with rfl | ⟨hr, hne⟩
    · exact pd_lookup_set_self _ _ _
    · rw [pd_lookup_set_ne _ _ _ _ hne]
      exact hinv.idx_of_rest x hr
  · intro i pr hl
    by_cases hio : i = o.id
    · subst hio
      exact ⟨o, Or.inl ⟨o.price, L, mem_alist_set_self _ _ _, hoL⟩, rfl⟩
    · rw [pd_lookup_set_ne _ _ _ _ hio] at hl
      obtain ⟨x, hx, hxid⟩ := hinv.rest_of_idx i pr hl
      refine ⟨x, ?_, hxid⟩
      rcases hx with ⟨q, l, hm, hxl⟩ | hask
      · by_cases hqp : q = o.price
        · subst hqp
          have hg2 : alist_get b.bids o.price = some l :=
            alist_get_of_mem_sorted _ _ _ hinv.bids_inv.sorted hm
          rcases hL with ⟨hg, _⟩ | ⟨l0, hg, hLe⟩
          · rw [hg] at hg2
            cases hg2
          · rw [hg] at hg2
            injection hg2 with e
            subst e
            refine Or.inl ⟨o.price, L, mem_alist_set_self _ _ _, ?_⟩
            rw [hLe]
            exact List.mem_append.mpr (Or.inl hxl)
        · exact Or.inl ⟨q, l, mem_alist_set_of_mem hm hqp, hxl⟩
      · exact Or.inr hask
  · exact pd_set_nodup _ _ _ hinv.pd_nodup

theorem inv_insert_asks (b : OrderBook) (o : Order) (L : List Order)
    (hinv : BookInv b) (hfresh : ∀ x, Rests b x → x.id ≠ o.id)
    (hL : (alist_get b.asks o.price = none ∧ L = [o]) ∨
          (∃ l0, alist_get b.asks o.price = some l0 ∧ L = l0 ++ [o])) :
    BookInv { b with asks := alist_set b.asks o.price L,
                     price_dict := pd_set b.price_dict o.id o.price } := by
  have hmemL : ∀ x ∈ L, x = o ∨
      (RestsIn b.asks x ∧ x.price = o.price) := by
    intro x hx
    rcases hL with ⟨hg, rfl⟩ | ⟨l0, hg, rfl⟩
    · rcases List.mem_singleton.mp hx with rfl
      exact Or.inl rfl
    · rcases List.mem_append.mp hx with h1 | h1
      · exact Or.inr ⟨restsIn_of_get hg h1,
          hinv.asks_inv.keyed o.price l0 x (alist_get_mem _ _ _ hg) h1⟩
      · exact Or.inl (List.mem_singleton.mp h1)
  have hoL : o ∈ L := by
    rcases hL with ⟨_, rfl⟩ | ⟨l0, _, rfl⟩
    · exact List.mem_singleton.mpr rfl
    · exact List.mem_append.mpr (Or.inr (List.mem_singleton.mpr rfl))
  refine ⟨hinv.bids_inv, ⟨?_, ?_, ?_⟩, ?_, ?_, ?_⟩
  · exact alist_set_keysSorted _ _ _ hinv.asks_inv.sorted
  · intro p l hm
    rcases mem_alist_set_elim hm with ⟨hq, rfl⟩ | hm2
    · rcases hL with ⟨_, rfl⟩ | ⟨l0, _, rfl⟩ <;> simp
    · exact hinv.asks_inv.nonempty p l hm2
  · intro p l x hm hx
    rcases mem_alist_set_elim hm with ⟨rfl, rfl⟩ | hm2
    · rcases hmemL x hx with rfl | ⟨_, hp⟩
      · rfl
      · exact hp
    · exact hinv.asks_inv.keyed p l x hm2 hx
  · intro x hx
    have hcase : x = o ∨ (Rests b x ∧ x.id ≠ o.id) := by
      rcases hx with hbid | ⟨p, l, hm, hxl⟩
      · have hr : Rests b x := Or.inl hbid
        exact Or.inr ⟨hr, hfresh x hr⟩
      · rcases mem_alist_set_elim hm with ⟨rfl, rfl⟩ | hm2
        · rcases hmemL x hxl with rfl | ⟨hr, _⟩
          · exact Or.inl rfl
          · exact Or.inr ⟨Or.inr hr, hfresh x (Or.inr hr)⟩
        · have hr : Rests b x := Or.inr ⟨p, l, hm2, hxl⟩
          exact Or.inr ⟨hr, hfresh x hr⟩
    rcases hcase with rfl | ⟨hr, hne⟩
    · exact pd_lookup_set_self _ _ _
    · rw [pd_lookup_set_ne _ _ _ _ hne]
      exact hinv.idx_of_rest x hr
  · intro i pr hl
    by_cases hio : i = o.id
    · subst hio
      exact ⟨o, Or.inr ⟨o.price, L, mem_alist_set_self _ _ _, hoL⟩, rfl⟩
    · rw [pd_lookup_set_ne _ _ _ _ hio] at hl
      obtain ⟨x, hx, hxid⟩ := hinv.rest_of_idx i pr hl
      refine ⟨x, ?_, hxid⟩
      rcases hx with hbid | ⟨q, l, hm, hxl⟩
      · exact Or.inl hbid
      · by_cases hqp : q = o.price
        · subst hqp
          have hg2 : alist_get b.asks o.price = some l :=
            alist_get_of_mem_sorted _ _ _ hinv.asks_inv.sorted hm
          rcases hL with ⟨hg, _⟩ | ⟨l0, hg, hLe⟩
          · rw [hg] at hg2
            cases hg2
          · rw [hg] at hg2
            injection hg2 with e
            subst e
            refine Or.inr ⟨o.price, L, mem_alist_set_self _ _ _, ?_⟩
            rw [hLe]
            exact List.mem_append.mpr (Or.inl hxl)
        · exact Or.inr ⟨q, l, mem_alist_set_of_mem hm hqp, hxl⟩
  · exact pd_set_nodup _ _ _ hinv.pd_nodup

theorem add_preserves_inv (b : OrderBook) (m : Message) (b' : OrderBook)
    (hinv : BookInv b)
    (hfresh : ∀ i, pyOrStr m.order_id m.id = some i →
      ∀ x, Rests b x → x.id ≠ i)
    (h : add b m = some b') : BookInv b' := by
  unfold add at h
  cases hoid : pyOrStr m.order_id m.id with
  | none => simp [hoid] at h
  | some oid =>
  cases hsd : m.side with
  | none => simp [hoid, hsd] at h
  | some sd =>
  cases hp : m.price with
  | none => simp [hoid, hsd, hp] at h
  | some p =>
  cases hsz : pyOrQ m.size m.remaining_size with
  | none => simp [hoid, hsd, hp, hsz] at h
  | some sz =>
  simp only [hoid, hsd, hp, hsz, Option.bind_eq_bind, Option.some_bind] at h
  by_cases hbuy : sd = "buy"
  · simp only [if_pos hbuy, get_bids] at h
    cases hg : alist_get b.bids p with
    | none =>
      rw [hg] at h
      cases h
      exact inv_insert_bids b { id := oid, side := sd, price := p, size := sz }
        _ hinv (hfresh oid hoid) (Or.inl ⟨hg, rfl⟩)
    | some l0 =>
      rw [hg] at h
      cases h
      exact inv_insert_bids b { id := oid, side := sd, price := p, size := sz }
        _ hinv (hfresh oid hoid) (Or.inr ⟨l0, hg, rfl⟩)
  · simp only [if_neg hbuy, get_asks] at h
    cases hg : alist_get b.asks p with
    | none =>
      rw [hg] at h
      cases h
      exact inv_insert_asks b { id := oid, side := sd, price := p, size := sz }
        _ hinv (hfresh oid hoid) (Or.inl ⟨hg, rfl⟩)
    | some l0 =>
      rw [hg] at h
      cases h
      exact inv_insert_asks b { id := oid, side := sd, price := p, size := sz }
        _ hinv (hfresh oid hoid) (Or.inr ⟨l0, hg, rfl⟩)

theorem mem_alist_set_elim_sorted {α : Type} {m : List (Price × α)}
    {p q : Price} {v l : α} (hs : keysSorted m)
    (h : (q, l) ∈ alist_set m p v) :
    (q = p ∧ l = v) ∨ ((q, l) ∈ m ∧ q ≠ p) := by
  induction m with
  | nil =>
    simp [alist_set] at h
    exact Or.inl ⟨h.1, h.2⟩
  | cons hd t ih =>
    obtain ⟨r, w⟩ := hd
    rw [keysSorted, List.map_cons, List.pairwise_cons] at hs
    by_cases hpr : p = r
    · subst hpr
      simp only [alist_set, if_pos rfl] at h
      rcases List.mem_cons.mp h with h1 | h1
      · injection h1 with e1 e2
        exact Or.inl ⟨e1, e2⟩
      · have hqt : q ∈ t.map Prod.fst := List.mem_map.mpr ⟨(q, l), h1, rfl⟩
        have : p < q := hs.1 q hqt
        exact Or.inr ⟨List.mem_cons_of_mem _ h1,
          fun e => absurd (e ▸ this) (lt_irrefl p)⟩
    · by_cases hlt : p < r
      · simp only [alist_set, if_neg hpr, if_pos hlt] at h
        rcases List.mem_cons.mp h with h1 | h1
        · injection h1 with e1 e2
          exact Or.inl ⟨e1, e2⟩
        · rcases List.mem_cons.mp h1 with h2 | h2
          · injection h2 with e1 e2
            subst e1
            subst e2
            refine Or.inr ⟨List.mem_cons_self _ _, fun e => hpr e.symm⟩
          · have hqt : q ∈ t.map Prod.fst := List.mem_map.mpr ⟨(q, l), h2, rfl⟩
            have hrq : r < q := hs.1 q hqt
            have hpq : p < q := lt_trans hlt hrq
            exact Or.inr ⟨List.mem_cons_of_mem _ h2,
              fun e => absurd (e ▸ hpq) (lt_irrefl p)⟩
      · simp only [alist_set, if_neg hpr, if_neg hlt] at h
        rcases List.mem_cons.mp h with h1 | h1
        · injection h1 with e1 e2
          subst e1
          subst e2
          refine Or.inr ⟨List.mem_cons_self _ _, fun e => hpr e.symm⟩
        · rcases ih hs.2 h1 with h2 | h2
          · exact Or.inl h2
          · exact Or.inr ⟨List.mem_cons_of_mem _ h2.1, h2.2⟩

theorem lookup_none_no_id (b : OrderBook) (hinv : BookInv b) (i : OrderId)
    (hpd : pd_lookup b.price_dict i = none) :
    ∀ x, Rests b x → x.id ≠ i := by
  intro x hx he
  have h2 := hinv.idx_of_rest x hx
  rw [he, hpd] at h2
  cases h2

theorem lookup_some_id_price (b : OrderBook) (hinv : BookInv b) (i : OrderId)
    (ip : Price) (hpd : pd_lookup b.price_dict i = some ip) :
    ∀ x, Rests b x → x.id = i → x.price = ip := by
  intro x hx he
  have h2 := hinv.idx_of_rest x hx
  rw [he, hpd] at h2
  injection h2 with e
  exact e.symm

theorem remove_noop (b : OrderBook) (m : Message) (oid : OrderId)
    (claimed : Price) (sd : String) (hoid : m.order_id = some oid)
    (hp : m.price = some claimed) (hsd : m.side = some sd)
    (hpd : pd_lookup b.price_dict oid = none)
    (hsort : keysSorted (side_levels b sd))
    (hlvl : ∀ l, alist_get (side_levels b sd) claimed = some l →
      l ≠ [] ∧ ∀ x ∈ l, x.id ≠ oid) :
    remove b m = some (b, false) := by
  unfold remove
  rw [hoid, hp, hsd]
  simp only [Option.bind_eq_bind, Option.some_bind, hpd]
  by_cases hbuy : sd = "buy"
  · rw [side_levels_eq_bids b sd hbuy] at hsort hlvl
    rw [if_pos hbuy]
    cases hg : get_bids b claimed with
    | none => rfl
    | some l =>
      obtain ⟨hl0, hlid⟩ := hlvl l hg
      have hany : l.any (fun o => o.id = oid) = false := by
        simp only [List.any_eq_false]
        intro x hx
        simpa using hlid x hx
      have hfil : l.filter (fun o => ¬ o.id = oid) = l := by
        rw [List.filter_eq_self]
        intro x hx
        simpa using hlid x hx
      simp only [hany, hfil]
      rw [if_pos (List.length_pos.mpr hl0)]
      simp only [set_bids]
      rw [alist_set_self_of_get b.bids claimed l hsort hg]
  · rw [side_levels_eq_asks b sd hbuy] at hsort hlvl
    rw [if_neg hbuy]
    cases hg : get_asks b claimed with
    | none => rfl
    | some l =>
      obtain ⟨hl0, hlid⟩ := hlvl l hg
      have hany : l.any (fun o => o.id = oid) = false := by
        simp only [List.any_eq_false]
        intro x hx
        simpa using hlid x hx
      have hfil : l.filter (fun o => ¬ o.id = oid) = l := by
        rw [List.filter_eq_self]
        intro x hx
        simpa using hlid x hx
      simp only [hany, hfil]
      rw [if_pos (List.length_pos.mpr hl0)]
      simp only [set_asks]
      rw [alist_set_self_of_get b.asks claimed l hsort hg]

theorem inv_del_level_bids (b : OrderBook) (oid : OrderId) (ip : Price)
    (hinv : BookInv b) (hpd : pd_lookup b.price_dict oid = some ip)
    (hnask : NoIdIn b.asks oid) (l0 : List Order)
    (hg : alist_get b.bids ip = some l0)
    (hfe : l0.filter (fun x => ¬ x.id = oid) = []) :
    BookInv { b with bids := alist_del b.bids ip,
                     price_dict := pd_del b.price_dict oid } ∧
    ∀ x, Rests { b with bids := alist_del b.bids ip,
                        price_dict := pd_del b.price_dict oid } x →
      x.id ≠ oid := by
  have hallid : ∀ x ∈ l0, x.id = oid := by
    intro x hx
    by_contra hne
    have hmem : x ∈ l0.filter (fun x => ¬ x.id = oid) :=
      List.mem_filter.mpr ⟨hx, by simpa using hne⟩
    rw [hfe] at hmem
    cases hmem
  have hnotid : ∀ x,
      Rests { b with bids := alist_del b.bids ip,
                     price_dict := pd_del b.price_dict oid } x →
      x.id ≠ oid := by
    intro x hx he
    rcases hx with ⟨q, l, hm, hxl⟩ | hask
    · obtain ⟨hm2, hq⟩ := mem_alist_del_elim hm
      have hr : Rests b x := Or.inl ⟨q, l, hm2, hxl⟩
      have hxp : x.price = ip := lookup_some_id_price b hinv oid ip hpd x hr he
      have hkey := hinv.bids_inv.keyed q l x hm2 hxl
      exact hq (hxp ▸ hkey.symm)
    · exact hnask x hask he
  refine ⟨⟨⟨?_, ?_, ?_⟩, hinv.asks_inv, ?_, ?_, ?_⟩, hnotid⟩
  · exact alist_del_keysSorted _ _ hinv.bids_inv.sorted
  · intro p l hm
    exact hinv.bids_inv.nonempty p l (mem_alist_del_elim hm).1
  · intro p l x hm hx
    exact hinv.bids_inv.keyed p l x (mem_alist_del_elim hm).1 hx
  · intro x hx
    have hne := hnotid x hx
    have hr : Rests b x := by
      rcases hx with ⟨q, l, hm, hxl⟩ | hask
      · exact Or.inl ⟨q, l, (mem_alist_del_elim hm).1, hxl⟩
      · exact Or.inr hask
    rw [pd_lookup_del_ne _ _ _ hne]
    exact hinv.idx_of_rest x hr
  · intro i pr hl
    by_cases hio : i = oid
    · subst hio
      rw [pd_lookup_del_self] at hl
      cases hl
    · rw [pd_lookup_del_ne _ _ _ hio] at hl
      obtain ⟨x, hx, hxid⟩ := hinv.rest_of_idx i pr hl
      refine ⟨x, ?_, hxid⟩
      rcases hx with ⟨q, l, hm, hxl⟩ | hask
      · by_cases hq : q = ip
        · subst hq
          have hg2 : alist_get b.bids q = some l :=
            alist_get_of_mem_sorted _ _ _ hinv.bids_inv.sorted hm
          rw [hg] at hg2
          injection hg2 with e
          subst e
          exact absurd (hxid ▸ hallid x hxl) hio
        · exact Or.inl ⟨q, l, mem_alist_del_of_mem hm hq, hxl⟩
      · exact Or.inr hask
  · exact pd_del_nodup _ _ hinv.pd_nodup

theorem inv_set_level_bids (b : OrderBook) (oid : OrderId) (ip : Price)
    (hinv : BookInv b) (hpd : pd_lookup b.price_dict oid = some ip)
    (hnask : NoIdIn b.asks oid) (l0 : List Order)
    (hg : alist_get b.bids ip = some l0)
    (hfne : l0.filter (fun x => ¬ x.id = oid) ≠ []) :
    BookInv { b with
        bids := alist_set b.bids ip (l0.filter (fun x => ¬ x.id = oid)),
        price_dict := pd_del b.price_dict oid } ∧
    ∀ x, Rests { b with
        bids := alist_set b.bids ip (l0.filter (fun x => ¬ x.id = oid)),
        price_dict := pd_del b.price_dict oid } x →
      x.id ≠ oid := by
  have hmemfil : ∀ x, x ∈ l0.filter (fun x => ¬ x.id = oid) →
      x ∈ l0 ∧ x.id ≠ oid := by
    intro x hx
    have h2 := List.mem_filter.mp hx
    exact ⟨h2.1, by simpa using h2.2⟩
  have hml0 : (ip, l0) ∈ b.bids := alist_get_mem _ _ _ hg
  have hnotid : ∀ x,
      Rests { b with
              bids := alist_set b.bids ip
                (l0.filter (fun x => ¬ x.id = oid)),
              price_dict := pd_del b.price_dict oid } x →
      x.id ≠ oid := by
    intro x hx he
    rcases hx with ⟨q, l, hm, hxl⟩ | hask
    · rcases mem_alist_set_elim_sorted hinv.bids_inv.sorted hm with
        ⟨rfl, rfl⟩ | ⟨hm2, hq⟩
      · exact (hmemfil x hxl).2 he
      · have hr : Rests b x := Or.inl ⟨q, l, hm2, hxl⟩
        have hxp : x.price = ip := lookup_some_id_price b hinv oid ip hpd x hr he
        have hkey := hinv.bids_inv.keyed q l x hm2 hxl
        exact hq (hxp ▸ hkey.symm)
    · exact hnask x hask he
  refine ⟨⟨⟨?_, ?_, ?_⟩, hinv.asks_inv, ?_, ?_, ?_⟩, hnotid⟩
  · exact alist_set_keysSorted _ _ _ hinv.bids_inv.sorted
  · intro p l hm
    rcases mem_alist_set_elim hm with ⟨hq, rfl⟩ | hm2
    · exact hfne
    · exact hinv.bids_inv.nonempty p l hm2
  · intro p l x hm hx
    rcases mem_alist_set_elim hm with ⟨rfl, rfl⟩ | hm2
    · exact hinv.bids_inv.keyed p l0 x hml0 (hmemfil x hx).1
    · exact hinv.bids_inv.keyed p l x hm2 hx
  · intro x hx
    have hne := hnotid x hx
    have hr : Rests b x := by
      rcases hx with ⟨q, l, hm, hxl⟩ | hask
      · rcases mem_alist_set_elim_sorted hinv.bids_inv.sorted hm with
          ⟨rfl, rfl⟩ | ⟨hm2, hq⟩
        · exact Or.inl ⟨q, l0, hml0, (hmemfil x hxl).1⟩
        · exact Or.inl ⟨q, l, hm2, hxl⟩
      · exact Or.inr hask
    rw [pd_lookup_del_ne _ _ _ hne]
    exact hinv.idx_of_rest x hr
  · intro i pr hl
    by_cases hio : i = oid
    · subst hio
      rw [pd_lookup_del_self] at hl
      cases hl
    · rw [pd_lookup_del_ne _ _ _ hio] at hl
      obtain ⟨x, hx, hxid⟩ := hinv.rest_of_idx i pr hl
      refine ⟨x, ?_, hxid⟩
      rcases hx with ⟨q, l, hm, hxl⟩ | hask
      · by_cases hq : q = ip
        · subst hq
          have hg2 : alist_get b.bids q = some l :=
            alist_get_of_mem_sorted _ _ _ hinv.bids_inv.sorted hm
          rw [hg] at hg2
          injection hg2 with e
          subst e
          have hxfil : x ∈ l0.filter (fun x => ¬ x.id = oid) :=
            List.mem_filter.mpr ⟨hxl, by simp [hxid, hio]⟩
          exact Or.inl ⟨q, _, mem_alist_set_self _ _ _, hxfil⟩
        · exact Or.inl ⟨q, l, mem_alist_set_of_mem hm hq, hxl⟩
      · exact Or.inr hask
  · exact pd_del_nodup _ _ hinv.pd_nodup

theorem inv_del_level_asks (b : OrderBook) (oid : OrderId) (ip : Price)
    (hinv : BookInv b) (hpd : pd_lookup b.price_dict oid = some ip)
    (hnbid : NoIdIn b.bids oid) (l0 : List Order)
    (hg : alist_get b.asks ip = some l0)
    (hfe : l0.filter (fun x => ¬ x.id = oid) = []) :
    BookInv { b with asks := alist_del b.asks ip,
                     price_dict := pd_del b.price_dict oid } ∧
    ∀ x, Rests { b with asks := alist_del b.asks ip,
                        price_dict := pd_del b.price_dict oid } x →
      x.id ≠ oid := by
  have hallid : ∀ x ∈ l0, x.id = oid := by
    intro x hx
    by_contra hne
    have hmem : x ∈ l0.filter (fun x => ¬ x.id = oid) :=
      List.mem_filter.mpr ⟨hx, by simpa using hne⟩
    rw [hfe] at hmem
    cases hmem
  have hnotid : ∀ x,
      Rests { b with asks := alist_del b.asks ip,
                     price_dict := pd_del b.price_dict oid } x →
      x.id ≠ oid := by
    intro x hx he
    rcases hx with hbid | ⟨q, l, hm, hxl⟩
    · exact hnbid x hbid he
    · obtain ⟨hm2, hq⟩ := mem_alist_del_elim hm
      have hr : Rests b x := Or.inr ⟨q, l, hm2, hxl⟩
      have hxp : x.price = ip := lookup_some_id_price b hinv oid ip hpd x hr he
      have hkey := hinv.asks_inv.keyed q l x hm2 hxl
      exact hq (hxp ▸ hkey.symm)
  refine ⟨⟨hinv.bids_inv, ⟨?_, ?_, ?_⟩, ?_, ?_, ?_⟩, hnotid⟩
  · exact alist_del_keysSorted _ _ hinv.asks_inv.sorted
  · intro p l hm
    exact hinv.asks_inv.nonempty p l (mem_alist_del_elim hm).1
  · intro p l x hm hx
    exact hinv.asks_inv.keyed p l x (mem_alist_del_elim hm).1 hx
  · intro x hx
    have hne := hnotid x hx
    have hr : Rests b x := by
      rcases hx with hbid | ⟨q, l, hm, hxl⟩
      · exact Or.inl hbid
      · exact Or.inr ⟨q, l, (mem_alist_del_elim hm).1, hxl⟩
    rw [pd_lookup_del_ne _ _ _ hne]
    exact hinv.idx_of_rest x hr
  · intro i pr hl
    by_cases hio : i = oid
    · subst hio
      rw [pd_lookup_del_self] at hl
      cases hl
    · rw [pd_lookup_del_ne _ _ _ hio] at hl
      obtain ⟨x, hx, hxid⟩ := hinv.rest_of_idx i pr hl
      refine ⟨x, ?_, hxid⟩
      rcases hx with hbid | ⟨q, l, hm, hxl⟩
      · exact Or.inl hbid
      · by_cases hq : q = ip
        · subst hq
          have hg2 : alist_get b.asks q = some l :=
            alist_get_of_mem_sorted _ _ _ hinv.asks_inv.sorted hm
          rw [hg] at hg2
          injection hg2 with e
          subst e
          exact absurd (hxid ▸ hallid x hxl) hio
        · exact Or.inr ⟨q, l, mem_alist_del_of_mem hm hq, hxl⟩
  · exact pd_del_nodup _ _ hinv.pd_nodup

theorem inv_set_level_asks (b : OrderBook) (oid : OrderId) (ip : Price)
    (hinv : BookInv b) (hpd : pd_lookup b.price_dict oid = some ip)
    (hnbid : NoIdIn b.bids oid) (l0 : List Order)
    (hg : alist_get b.asks ip = some l0)
    (hfne : l0.filter (fun x => ¬ x.id = oid) ≠ []) :
    BookInv { b with
        asks := alist_set b.asks ip (l0.filter (fun x => ¬ x.id = oid)),
        price_dict := pd_del b.price_dict oid } ∧
    ∀ x, Rests { b with
        asks := alist_set b.asks ip (l0.filter (fun x => ¬ x.id = oid)),
        price_dict := pd_del b.price_dict oid } x →
      x.id ≠ oid := by
  have hmemfil : ∀ x, x ∈ l0.filter (fun x => ¬ x.id = oid) →
      x ∈ l0 ∧ x.id ≠ oid := by
    intro x hx
    have h2 := List.mem_filter.mp hx
    exact ⟨h2.1, by simpa using h2.2⟩
  have hml0 : (ip, l0) ∈ b.asks := alist_get_mem _ _ _ hg
  have hnotid : ∀ x,
      Rests { b with
              asks := alist_set b.asks ip
                (l0.filter (fun x => ¬ x.id = oid)),
              price_dict := pd_del b.price_dict oid } x →
      x.id ≠ oid := by
    intro x hx he
    rcases hx with hbid | ⟨q, l, hm, hxl⟩
    · exact hnbid x hbid he
    · rcases mem_alist_set_elim_sorted hinv.asks_inv.sorted hm with
        ⟨rfl, rfl⟩ | ⟨hm2, hq⟩
      · exact (hmemfil x hxl).2 he
      · have hr : Rests b x := Or.inr ⟨q, l, hm2, hxl⟩
        have hxp : x.price = ip := lookup_some_id_price b hinv oid ip hpd x hr he
        have hkey := hinv.asks_inv.keyed q l x hm2 hxl
        exact hq (hxp ▸ hkey.symm)
  refine ⟨⟨hinv.bids_inv, ⟨?_, ?_, ?_⟩, ?_, ?_, ?_⟩, hnotid⟩
  · exact alist_set_keysSorted _ _ _ hinv.asks_inv.sorted
  · intro p l hm
    rcases mem_alist_set_elim hm with ⟨hq, rfl⟩ | hm2
    · exact hfne
    · exact hinv.asks_inv.nonempty p l hm2
  · intro p l x hm hx
    rcases mem_alist_set_elim hm with ⟨rfl, rfl⟩ | hm2
    · exact hinv.asks_inv.keyed p l0 x hml0 (hmemfil x hx).1
    · exact hinv.asks_inv.keyed p l x hm2 hx
  · intro x hx
    have hne := hnotid x hx
    have hr : Rests b x := by
      rcases hx with hbid | ⟨q, l, hm, hxl⟩
      · exact Or.inl hbid
      · rcases mem_alist_set_elim_sorted hinv.asks_inv.sorted hm with
          ⟨rfl, rfl⟩ | ⟨hm2, hq⟩
        · exact Or.inr ⟨q, l0, hml0, (hmemfil x hxl).1⟩
        · exact Or.inr ⟨q, l, hm2, hxl⟩
    rw [pd_lookup_del_ne _ _ _ hne]
    exact hinv.idx_of_rest x hr
  · intro i pr hl
    by_cases hio : i = oid
    · subst hio
      rw [pd_lookup_del_self] at hl
      cases hl
    · rw [pd_lookup_del_ne _ _ _ hio] at hl
      obtain ⟨x, hx, hxid⟩ := hinv.rest_of_idx i pr hl
      refine ⟨x, ?_, hxid⟩
      rcases hx with hbid | ⟨q, l, hm, hxl⟩
      · exact Or.inl hbid
      · by_cases hq : q = ip
        · subst hq
          have hg2 : alist_get b.asks q = some l :=
            alist_get_of_mem_sorted _ _ _ hinv.asks_inv.sorted hm
          rw [hg] at hg2
          injection hg2 with e
          subst e
          have hxfil : x ∈ l0.filter (fun x => ¬ x.id = oid) :=
            List.mem_filter.mpr ⟨hxl, by simp [hxid, hio]⟩
          exact Or.inr ⟨q, _, mem_alist_set_self _ _ _, hxfil⟩
        · exact Or.inr ⟨q, l, mem_alist_set_of_mem hm hq, hxl⟩
  · exact pd_del_nodup _ _ hinv.pd_nodup

theorem remove_preserves_inv (b b' : OrderBook) (m : Message) (found : Bool)
    (oid : OrderId) (hinv : BookInv b) (hoid : m.order_id = some oid)
    (hside : ∀ sd, m.side = some sd → sideOk b sd oid)
    (h : remove b m = some (b', found)) :
    BookInv b' ∧ ∀ x, Rests b' x → x.id ≠ oid := by
  cases hp : m.price with
  | none =>
    unfold remove at h
    rw [hoid, hp] at h
    simp at h
  | some claimed =>
  cases hsd : m.side with
  | none =>
    unfold remove at h
    rw [hoid, hp, hsd] at h
    simp at h
  | some sd =>
  have hsideok := hside sd hsd
  cases hpd : pd_lookup b.price_dict oid with
  | none =>
    have hno : ∀ x, Rests b x → x.id ≠ oid := lookup_none_no_id b hinv oid hpd
    have hsort : keysSorted (side_levels b sd) := by
      by_cases hbuy : sd = "buy"
      · rw [side_levels_eq_bids b sd hbuy]
        exact hinv.bids_inv.sorted
      · rw [side_levels_eq_asks b sd hbuy]
        exact hinv.asks_inv.sorted
    have hlvl : ∀ l, alist_get (side_levels b sd) claimed = some l →
        l ≠ [] ∧ ∀ x ∈ l, x.id ≠ oid := by
      intro l hg
      by_cases hbuy : sd = "buy"
      · rw [side_levels_eq_bids b sd hbuy] at hg
        refine ⟨hinv.bids_inv.nonempty _ _ (alist_get_mem _ _ _ hg), ?_⟩
        intro x hx
        exact hno x (Or.inl (restsIn_of_get hg hx))
      · rw [side_levels_eq_asks b sd hbuy] at hg
        refine ⟨hinv.asks_inv.nonempty _ _ (alist_get_mem _ _ _ hg), ?_⟩
        intro x hx
        exact hno x (Or.inr (restsIn_of_get hg hx))
    have hrun := remove_noop b m oid claimed sd hoid hp hsd hpd hsort hlvl
    rw [hrun] at h
    injection h with h1
    injection h1 with hb hf
    subst hb
    exact ⟨hinv, hno⟩
  | some ip =>
  obtain ⟨x0, hx0, hx0id⟩ := hinv.rest_of_idx oid ip hpd
  have hxp : x0.price = ip := lookup_some_id_price b hinv oid ip hpd x0 hx0 hx0id
  by_cases hbuy : sd = "buy"
  · have hnask : NoIdIn b.asks oid := by
      simpa [sideOk, hbuy] using hsideok
    have hx0b : RestsIn b.bids x0 := by
      rcases hx0 with hb0 | ha0
      · exact hb0
      · exact absurd hx0id (hnask x0 ha0)
    obtain ⟨q, l0, hm, hxl⟩ := hx0b
    have hq : q = ip := by
      have hkey := hinv.bids_inv.keyed q l0 x0 hm hxl
      rw [hxp] at hkey
      exact hkey.symm
    rw [hq] at hm
    have hg : alist_get b.bids ip = some l0 :=
      alist_get_of_mem_sorted _ _ _ hinv.bids_inv.sorted hm
    by_cases hfe : l0.filter (fun x => ¬ x.id = oid) = []
    · have hrun : remove b m =
          some ({ b with bids := alist_del b.bids ip,
                         price_dict := pd_del b.price_dict oid },
                l0.any (fun x => x.id = oid)) := by
        unfold remove
        rw [hoid, hp, hsd]
        simp only [Option.bind_eq_bind, Option.some_bind, hpd]
        rw [if_pos hbuy]
        have hfe2 := hfe
        simp only [decide_not] at hfe2
        simp [get_bids, hg, hfe2, remove_bids, decide_not]
      rw [hrun] at h
      injection h with h1
      injection h1 with hb hf
      subst hb
      exact inv_del_level_bids b oid ip hinv hpd hnask l0 hg hfe
    · have hrun : remove b m =
          some ({ b with
                    bids := alist_set b.bids ip
                      (l0.filter (fun x => ¬ x.id = oid)),
                    price_dict := pd_del b.price_dict oid },
                l0.any (fun x => x.id = oid)) := by
        unfold remove
        rw [hoid, hp, hsd]
        simp only [Option.bind_eq_bind, Option.some_bind, hpd]
        rw [if_pos hbuy]
        have hfp : 0 < (l0.filter (fun x => ¬ x.id = oid)).length :=
          List.length_pos.mpr hfe
        simp only [decide_not] at hfp
        simp [get_bids, hg, hfp, set_bids, decide_not]
      rw [hrun] at h
      injection h with h1
      injection h1 with hb hf
      subst hb
      exact inv_set_level_bids b oid ip hinv hpd hnask l0 hg hfe
  · have hnbid : NoIdIn b.bids oid := by
      simpa [sideOk, hbuy] using hsideok
    have hx0a : RestsIn b.asks x0 := by
      rcases hx0 with hb0 | ha0
      · exact absurd hx0id (hnbid x0 hb0)
      · exact ha0
    obtain ⟨q, l0, hm, hxl⟩ := hx0a
    have hq : q = ip := by
      have hkey := hinv.asks_inv.keyed q l0 x0 hm hxl
      rw [hxp] at hkey
      exact hkey.symm
    rw [hq] at hm
    have hg : alist_get b.asks ip = some l0 :=
      alist_get_of_mem_sorted _ _ _ hinv.asks_inv.sorted hm
    by_cases hfe : l0.filter (fun x => ¬ x.id = oid) = []
    · have hrun : remove b m =
          some ({ b with asks := alist_del b.asks ip,
                         price_dict := pd_del b.price_dict oid },
                l0.any (fun x => x.id = oid)) := by
        unfold remove
        rw [hoid, hp, hsd]
        simp only [Option.bind_eq_bind, Option.some_bind, hpd]
        rw [if_neg hbuy]
        have hfe2 := hfe
        simp only [decide_not] at hfe2
        simp [get_asks, hg, hfe2, remove_asks, decide_not]
      rw [hrun] at h
      injection h with h1
      injection h1 with hb hf
      subst hb
      exact inv_del_level_asks b oid ip hinv hpd hnbid l0 hg hfe
    · have hrun : remove b m =
          some ({ b with
                    asks := alist_set b.asks ip
                      (l0.filter (fun x => ¬ x.id = oid)),
                    price_dict := pd_del b.price_dict oid },
                l0.any (fun x => x.id = oid)) := by
        unfold remove
        rw [hoid, hp, hsd]
        simp only [Option.bind_eq_bind, Option.some_bind, hpd]
        rw [if_neg hbuy]
        have hfp : 0 < (l0.filter (fun x => ¬ x.id = oid)).length :=
          List.length_pos.mpr hfe
        simp only [decide_not] at hfp
        simp [get_asks, hg, hfp, set_asks, decide_not]
      rw [hrun] at h
      injection h with h1
      injection h1 with hb hf
      subst hb
      exact inv_set_level_asks b oid ip hinv hpd hnbid l0 hg hfe

theorem inv_replace_level_bids (b : OrderBook) (p : Price)
    (l0 l2 : List Order) (hinv : BookInv b)
    (hg : alist_get b.bids p = some l0) (hne2 : l2 ≠ [])
    (hfwd : ∀ x ∈ l2, ∃ y ∈ l0, x.id = y.id ∧ x.price = y.price)
    (hbwd : ∀ y ∈ l0, ∃ x ∈ l2, x.id = y.id ∧ x.price = y.price) :
    BookInv { b with bids := alist_set b.bids p l2 } := by
  have hml0 : (p, l0) ∈ b.bids := alist_get_mem _ _ _ hg
  refine ⟨⟨?_, ?_, ?_⟩, hinv.asks_inv, ?_, ?_, hinv.pd_nodup⟩
  · exact alist_set_keysSorted _ _ _ hinv.bids_inv.sorted
  · intro q l hm
    rcases mem_alist_set_elim hm with ⟨hq, rfl⟩ | hm2
    · exact hne2
    · exact hinv.bids_inv.nonempty q l hm2
  · intro q l x hm hx
    rcases mem_alist_set_elim hm with ⟨rfl, rfl⟩ | hm2
    · obtain ⟨y, hy, _, hp2⟩ := hfwd x hx
      rw [hp2]
      exact hinv.bids_inv.keyed q l0 y hml0 hy
    · exact hinv.bids_inv.keyed q l x hm2 hx
  · intro x hx
    rcases hx with ⟨q, l, hm, hxl⟩ | hask
    · rcases mem_alist_set_elim_sorted hinv.bids_inv.sorted hm with
        ⟨rfl, rfl⟩ | ⟨hm2, _⟩
      · obtain ⟨y, hy, hid2, hp2⟩ := hfwd x hxl
        rw [hid2, hp2]
        exact hinv.idx_of_rest y (Or.inl ⟨q, l0, hml0, hy⟩)
      · exact hinv.idx_of_rest x (Or.inl ⟨q, l, hm2, hxl⟩)
    · exact hinv.idx_of_rest x (Or.inr hask)
  · intro i pr hl
    obtain ⟨y, hy, hyid⟩ := hinv.rest_of_idx i pr hl
    rcases hy with ⟨q, l, hm, hyl⟩ | hask
    · by_cases hq : q = p
      · subst hq
        have hg2 : alist_get b.bids q = some l :=
          alist_get_of_mem_sorted _ _ _ hinv.bids_inv.sorted hm
        rw [hg] at hg2
        injection hg2 with e
        subst e
        obtain ⟨x, hx, hid2, _⟩ := hbwd y hyl
        exact ⟨x, Or.inl ⟨q, l2, mem_alist_set_self _ _ _, hx⟩,
          hid2.symm ▸ hyid⟩
      · exact ⟨y, Or.inl ⟨q, l, mem_alist_set_of_mem hm hq, hyl⟩, hyid⟩
    · exact ⟨y, Or.inr hask, hyid⟩

theorem inv_replace_level_asks (b : OrderBook) (p : Price)
    (l0 l2 : List Order) (hinv : BookInv b)
    (hg : alist_get b.asks p = some l0) (hne2 : l2 ≠ [])
    (hfwd : ∀ x ∈ l2, ∃ y ∈ l0, x.id = y.id ∧ x.price = y.price)
    (hbwd : ∀ y ∈ l0, ∃ x ∈ l2, x.id = y.id ∧ x.price = y.price) :
    BookInv { b with asks := alist_set b.asks p l2 } := by
  have hml0 : (p, l0) ∈ b.asks := alist_get_mem _ _ _ hg
  refine ⟨hinv.bids_inv, ⟨?_, ?_, ?_⟩, ?_, ?_, hinv.pd_nodup⟩
  · exact alist_set_keysSorted _ _ _ hinv.asks_inv.sorted
  · intro q l hm
    rcases mem_alist_set_elim hm with ⟨hq, rfl⟩ | hm2
    · exact hne2
    · exact hinv.asks_inv.nonempty q l hm2
  · intro q l x hm hx
    rcases mem_alist_set_elim hm with ⟨rfl, rfl⟩ | hm2
    · obtain ⟨y, hy, _, hp2⟩ := hfwd x hx
      rw [hp2]
      exact hinv.asks_inv.keyed q l0 y hml0 hy
    · exact hinv.asks_inv.keyed q l x hm2 hx
  · intro x hx
    rcases hx with hbid | ⟨q, l, hm, hxl⟩
    · exact hinv.idx_of_rest x (Or.inl hbid)
    · rcases mem_alist_set_elim_sorted hinv.asks_inv.sorted hm with
        ⟨rfl, rfl⟩ | ⟨hm2, _⟩
      · obtain ⟨y, hy, hid2, hp2⟩ := hfwd x hxl
        rw [hid2, hp2]
        exact hinv.idx_of_rest y (Or.inr ⟨q, l0, hml0, hy⟩)
      · exact hinv.idx_of_rest x (Or.inr ⟨q, l, hm2, hxl⟩)
  · intro i pr hl
    obtain ⟨y, hy, hyid⟩ := hinv.rest_of_idx i pr hl
    rcases hy with hbid | ⟨q, l, hm, hyl⟩
    · exact ⟨y, Or.inl hbid, hyid⟩
    · by_cases hq : q = p
      · subst hq
        have hg2 : alist_get b.asks q = some l :=
          alist_get_of_mem_sorted _ _ _ hinv.asks_inv.sorted hm
        rw [hg] at hg2
        injection hg2 with e
        subst e
        obtain ⟨x, hx, hid2, _⟩ := hbwd y hyl
        exact ⟨x, Or.inr ⟨q, l2, mem_alist_set_self _ _ _, hx⟩,
          hid2.symm ▸ hyid⟩
      · exact ⟨y, Or.inr ⟨q, l, mem_alist_set_of_mem hm hq, hyl⟩, hyid⟩

theorem match_preserves_inv (b b' : OrderBook) (m : Message)
    (hinv : BookInv b) (h : match_event b m = some b') : BookInv b' := by
  unfold match_event at h
  cases hsz : m.size with
  | none => rw [hsz] at h; simp at h
  | some sz =>
  cases hp : m.price with
  | none => rw [hsz, hp] at h; simp at h
  | some p =>
  cases hsd : m.side with
  | none => rw [hsz, hp, hsd] at h; simp at h
  | some sd =>
  rw [hsz, hp, hsd] at h
  simp only [Option.bind_eq_bind, Option.some_bind] at h
  by_cases hbuy : sd = "buy"
  · rw [if_pos hbuy] at h
    cases hg : get_bids b p with
    | none =>
      rw [hg] at h
      injection h with hb
      subst hb
      exact hinv
    | some l0 =>
      cases l0 with
      | nil =>
        rw [hg] at h
        injection h with hb
        subst hb
        exact hinv
      | cons hd t =>
        rw [hg] at h
        cases hmid : m.maker_order_id with
        | none => rw [hmid] at h; simp at h
        | some mid =>
        rw [hmid] at h
        simp only [Option.bind_eq_bind, Option.some_bind] at h
        cases hml : matchLevel hd t mid sz with
        | none => rw [hml] at h; simp at h
        | some l2 =>
        rw [hml] at h
        simp only [Option.bind_eq_bind, Option.some_bind] at h
        injection h with hb
        subst hb
        obtain ⟨o, rest, hom, hoid2, hl2, hperm⟩ :=
          matchLevel_spec hd t mid sz l2 hml
        rw [get_bids] at hg
        refine inv_replace_level_bids b p (hd :: t) l2 hinv hg ?_ ?_ ?_
        · rw [hl2]
          simp
        · intro x hx
          rw [hl2] at hx
          rcases List.mem_cons.mp hx with rfl | hx2
          · exact ⟨o, hom, rfl, rfl⟩
          · exact ⟨x, hperm.subset (List.mem_cons_of_mem _ hx2), rfl, rfl⟩
        · intro y hy
          have hy2 : y ∈ o :: rest := hperm.mem_iff.mpr hy
          rcases List.mem_cons.mp hy2 with rfl | hy3
          · refine ⟨{ y with size := y.size - sz }, ?_, rfl, rfl⟩
            rw [hl2]
            exact List.mem_cons_self _ _
          · refine ⟨y, ?_, rfl, rfl⟩
            rw [hl2]
            exact List.mem_cons_of_mem _ hy3
  · rw [if_neg hbuy] at h
    cases hg : get_asks b p with
    | none =>
      rw [hg] at h
      injection h with hb
      subst hb
      exact hinv
    | some l0 =>
      cases l0 with
      | nil =>
        rw [hg] at h
        injection h with hb
        subst hb
        exact hinv
      | cons hd t =>
        rw [hg] at h
        cases hmid : m.maker_order_id with
        | none => rw [hmid] at h; simp at h
        | some mid =>
        rw [hmid] at h
        simp only [Option.bind_eq_bind, Option.some_bind] at h
        cases hml : matchLevel hd t mid sz with
        | none => rw [hml] at h; simp at h
        | some l2 =>
        rw [hml] at h
        simp only [Option.bind_eq_bind, Option.some_bind] at h
        injection h with hb
        subst hb
        obtain ⟨o, rest, hom, hoid2, hl2, hperm⟩ :=
          matchLevel_spec hd t mid sz l2 hml
        rw [get_asks] at hg
        refine inv_replace_level_asks b p (hd :: t) l2 hinv hg ?_ ?_ ?_
        · rw [hl2]
          simp
        · intro x hx
          rw [hl2] at hx
          rcases List.mem_cons.mp hx with rfl | hx2
          · exact ⟨o, hom, rfl, rfl⟩
          · exact ⟨x, hperm.subset (List.mem_cons_of_mem _ hx2), rfl, rfl⟩
        · intro y hy
          have hy2 : y ∈ o :: rest := hperm.mem_iff.mpr hy
          rcases List.mem_cons.mp hy2 with rfl | hy3
          · refine ⟨{ y with size := y.size - sz }, ?_, rfl, rfl⟩
            rw [hl2]
            exact List.mem_cons_self _ _
          · refine ⟨y, ?_, rfl, rfl⟩
            rw [hl2]
            exact List.mem_cons_of_mem _ hy3

theorem updateFirstSize_ne (l : List Order) (i : OrderId) (sz : ℚ)
    (h : l ≠ []) : updateFirstSize l i sz ≠ [] := by
  cases l with
  | nil => exact absurd rfl h
  | cons o t =>
    unfold updateFirstSize
    by_cases ho : o.id = i <;> simp [ho]

theorem updateFirstSize_fwd (l : List Order) (i : OrderId) (sz : ℚ) :
    ∀ x ∈ updateFirstSize l i sz, ∃ y ∈ l, x.id = y.id ∧ x.price = y.price := by
  induction l with
  | nil => simp [updateFirstSize]
  | cons o t ih =>
    intro x hx
    unfold updateFirstSize at hx
    by_cases ho : o.id = i
    · rw [if_pos ho] at hx
      rcases List.mem_cons.mp hx with rfl | hx2
      · exact ⟨o, List.mem_cons_self _ _, rfl, rfl⟩
      · exact ⟨x, List.mem_cons_of_mem _ hx2, rfl, rfl⟩
    · rw [if_neg ho] at hx
      rcases List.mem_cons.mp hx with rfl | hx2
      · exact ⟨x, List.mem_cons_self _ _, rfl, rfl⟩
      · obtain ⟨y, hy, e1, e2⟩ := ih x hx2
        exact ⟨y, List.mem_cons_of_mem _ hy, e1, e2⟩

theorem updateFirstSize_bwd (l : List Order) (i : OrderId) (sz : ℚ) :
    ∀ y ∈ l, ∃ x ∈ updateFirstSize l i sz, x.id = y.id ∧ x.price = y.price := by
  induction l with
  | nil => simp
  | cons o t ih =>
    intro y hy
    unfold updateFirstSize
    by_cases ho : o.id = i
    · rw [if_pos ho]
      rcases List.mem_cons.mp hy with rfl | hy2
      · exact ⟨{ y with size := sz }, List.mem_cons_self _ _, rfl, rfl⟩
      · exact ⟨y, List.mem_cons_of_mem _ hy2, rfl, rfl⟩
    · rw [if_neg ho]
      rcases List.mem_cons.mp hy with rfl | hy2
      · exact ⟨y, List.mem_cons_self _ _, rfl, rfl⟩
      · obtain ⟨x, hx, e1, e2⟩ := ih y hy2
        exact ⟨x, List.mem_cons_of_mem _ hx, e1, e2⟩

theorem change_preserves_inv (b b' : OrderBook) (m : Message)
    (hinv : BookInv b)
    (hside : ∀ sd i, m.side = some sd → m.order_id = some i → sideOk b sd i)
    (h : change b m = some b') : BookInv b' := by
  unfold change at h
  cases hnsz : m.new_size with
  | none =>
    rw [hnsz] at h
    injection h with hb
    subst hb
    exact hinv
  | some nsz =>
  rw [hnsz] at h
  cases hnp : m.new_price with
  | some np =>
    rw [hnp] at h
    cases hop : m.old_price with
    | none => rw [hop] at h; simp at h
    | some op =>
    cases hsd : m.side with
    | none => rw [hop, hsd] at h; simp at h
    | some sd =>
    cases hoid : m.order_id with
    | none => rw [hop, hsd, hoid] at h; simp at h
    | some oid =>
    rw [hop, hsd, hoid] at h
    simp only [Option.bind_eq_bind, Option.some_bind] at h
    cases hrm : remove b (chgRmMsg sd oid op nsz) with
    | none => rw [hrm] at h; simp at h
    | some pr =>
    obtain ⟨b1, found⟩ := pr
    rw [hrm] at h
    simp only [Option.bind_eq_bind, Option.some_bind] at h
    have hside1 : ∀ sd', (chgRmMsg sd oid op nsz).side = some sd' →
        sideOk b sd' oid := by
      intro sd' hsd'
      have e : some sd = some sd' := hsd'
      injection e with e2
      subst e2
      exact hside sd oid hsd hoid
    obtain ⟨hinv1, hfresh1⟩ := remove_preserves_inv b b1
      (chgRmMsg sd oid op nsz) found oid hinv rfl hside1 hrm
    cases found with
    | false =>
      simp only [Bool.false_eq_true, if_false] at h
      injection h with hb
      subst hb
      exact hinv1
    | true =>
      simp only [if_true] at h
      refine add_preserves_inv b1 (chgAddMsg sd oid np nsz) b' hinv1 ?_ h
      intro i hi x hx
      have e : pyOrStr (some oid) none = some i := hi
      rw [show pyOrStr (some oid) none =
        (if oid = "" then none else some oid) from rfl] at e
      by_cases ho : oid = ""
      · rw [if_pos ho] at e
        cases e
      · rw [if_neg ho] at e
        injection e with e2
        subst e2
        exact hfresh1 x hx
  | none =>
    rw [hnp] at h
    cases hoid : m.order_id with
    | none =>
      rw [hoid] at h
      simp only [Option.bind_eq_bind, Option.none_bind] at h
      cases h
    | some oid =>
    cases hsd : m.side with
    | none =>
      rw [hoid, hsd] at h
      simp only [Option.bind_eq_bind, Option.some_bind, Option.none_bind] at h
      cases h
    | some sd =>
    rw [hoid, hsd] at h
    simp only [Option.bind_eq_bind, Option.some_bind] at h
    by_cases hbuy : sd = "buy"
    · rw [if_pos hbuy] at h
      cases hold : get_bid_by_id b oid with
      | none =>
        rw [hold] at h
        have h2 : some b = some b' := h
        injection h2 with hb
        subst hb
        exact hinv
      | some old =>
      rw [hold] at h
      cases hpv : m.price with
      | none =>
        rw [hpv] at h
        have h2 : (if sd = "buy" then
            match get_bids b old.price with
            | none => some b
            | some l =>
              if l.any (fun o => o.id = oid) then
                some (set_bids b old.price (updateFirstSize l oid nsz))
              else some b
          else
            match get_asks b old.price with
            | none => some b
            | some l =>
              if l.any (fun o => o.id = oid) then
                some (set_asks b old.price (updateFirstSize l oid nsz))
              else some b) = some b' := h
        rw [if_pos hbuy] at h2
        cases hg : get_bids b old.price with
        | none =>
          rw [hg] at h2
          have h3 : some b = some b' := h2
          injection h3 with hb
          subst hb
          exact hinv
        | some l =>
          rw [hg] at h2
          have h3 : (if l.any (fun o => o.id = oid) then
              some (set_bids b old.price (updateFirstSize l oid nsz))
            else some b) = some b' := h2
          by_cases hany : l.any (fun o => o.id = oid) = true
          · rw [if_pos hany] at h3
            injection h3 with hb
            subst hb
            rw [get_bids] at hg
            exact inv_replace_level_bids b old.price l _ hinv hg
              (updateFirstSize_ne l oid nsz
                (hinv.bids_inv.nonempty _ _ (alist_get_mem _ _ _ hg)))
              (updateFirstSize_fwd l oid nsz) (updateFirstSize_bwd l oid nsz)
          · rw [if_neg hany] at h3
            injection h3 with hb
            subst hb
            exact hinv
      | some pv =>
        rw [hpv] at h
        have hA : (if pv = old.price then
            (if sd = "buy" then
              match get_bids b pv with
              | none => some b
              | some l =>
                if l.any (fun o => o.id = oid) then
                  some (set_bids b pv (updateFirstSize l oid nsz))
                else some b
            else
              match get_asks b pv with
              | none => some b
              | some l =>
                if l.any (fun o => o.id = oid) then
                  some (set_asks b pv (updateFirstSize l oid nsz))
                else some b)
          else (none : Option OrderBook)) = some b' := h
        by_cases hpe : pv = old.price
        · rw [if_pos hpe, if_pos hbuy] at hA
          cases hg : get_bids b pv with
          | none =>
            rw [hg] at hA
            have h3 : some b = some b' := hA
            injection h3 with hb
            subst hb
            exact hinv
          | some l =>
            rw [hg] at hA
            have h3 : (if l.any (fun o => o.id = oid) then
                some (set_bids b pv (updateFirstSize l oid nsz))
              else some b) = some b' := hA
            by_cases hany : l.any (fun o => o.id = oid) = true
            · rw [if_pos hany] at h3
              injection h3 with hb
              subst hb
              rw [get_bids] at hg
              exact inv_replace_level_bids b pv l _ hinv hg
                (updateFirstSize_ne l oid nsz
                  (hinv.bids_inv.nonempty _ _ (alist_get_mem _ _ _ hg)))
                (updateFirstSize_fwd l oid nsz) (updateFirstSize_bwd l oid nsz)
            · rw [if_neg hany] at h3
              injection h3 with hb
              subst hb
              exact hinv
        · rw [if_neg hpe] at hA
          cases hA
    · rw [if_neg hbuy] at h
      by_cases hsell : sd = "sell"
      · rw [if_pos hsell] at h
        cases hold : get_ask_by_id b oid with
        | none =>
          rw [hold] at h
          have h2 : some b = some b' := h
          injection h2 with hb
          subst hb
          exact hinv
        | some old =>
        rw [hold] at h
        cases hpv : m.price with
        | none =>
          rw [hpv] at h
          have h2 : (if sd = "buy" then
              match get_bids b old.price with
              | none => some b
              | some l =>
                if l.any (fun o => o.id = oid) then
                  some (set_bids b old.price (updateFirstSize l oid nsz))
                else some b
            else
              match get_asks b old.price with
              | none => some b
              | some l =>
                if l.any (fun o => o.id = oid) then
                  some (set_asks b old.price (updateFirstSize l oid nsz))
                else some b) = some b' := h
          rw [if_neg hbuy] at h2
          cases hg : get_asks b old.price with
          | none =>
            rw [hg] at h2
            have h3 : some b = some b' := h2
            injection h3 with hb
            subst hb
            exact hinv
          | some l =>
            rw [hg] at h2
            have h3 : (if l.any (fun o => o.id = oid) then
                some (set_asks b old.price (updateFirstSize l oid nsz))
              else some b) = some b' := h2
            by_cases hany : l.any (fun o => o.id = oid) = true
            · rw [if_pos hany] at h3
              injection h3 with hb
              subst hb
              rw [get_asks] at hg
              exact inv_replace_level_asks b old.price l _ hinv hg
                (updateFirstSize_ne l oid nsz
                  (hinv.asks_inv.nonempty _ _ (alist_get_mem _ _ _ hg)))
                (updateFirstSize_fwd l oid nsz) (updateFirstSize_bwd l oid nsz)
            · rw [if_neg hany] at h3
              injection h3 with hb
              subst hb
              exact hinv
        | some pv =>
          rw [hpv] at h
          have hA : (if pv = old.price then
              (if sd = "buy" then
                match get_bids b pv with
                | none => some b
                | some l =>
                  if l.any (fun o => o.id = oid) then
                    some (set_bids b pv (updateFirstSize l oid nsz))
                  else some b
              else
                match get_asks b pv with
                | none => some b
                | some l =>
                  if l.any (fun o => o.id = oid) then
                    some (set_asks b pv (updateFirstSize l oid nsz))
                  else some b)
            else (none : Option OrderBook)) = some b' := h
          by_cases hpe : pv = old.price
          · rw [if_pos hpe, if_neg hbuy] at hA
            cases hg : get_asks b pv with
            | none =>
              rw [hg] at hA
              have h3 : some b = some b' := hA
              injection h3 with hb
              subst hb
              exact hinv
            | some l =>
              rw [hg] at hA
              have h3 : (if l.any (fun o => o.id = oid) then
                  some (set_asks b pv (updateFirstSize l oid nsz))
                else some b) = some b' := hA
              by_cases hany : l.any (fun o => o.id = oid) = true
              · rw [if_pos hany] at h3
                injection h3 with hb
                subst hb
                rw [get_asks] at hg
                exact inv_replace_level_asks b pv l _ hinv hg
                  (updateFirstSize_ne l oid nsz
                    (hinv.asks_inv.nonempty _ _ (alist_get_mem _ _ _ hg)))
                  (updateFirstSize_fwd l oid nsz) (updateFirstSize_bwd l oid nsz)
              · rw [if_neg hany] at h3
                injection h3 with hb
                subst hb
                exact hinv
          · rw [if_neg hpe] at hA
            cases hA
      · rw [if_neg hsell] at h
        simp only [Option.bind_eq_bind, Option.none_bind] at h
        cases h

theorem sideInv_nil : SideInv ([] : List (Price × List Order)) := by
  refine ⟨List.Pairwise.nil, ?_, ?_⟩
  · intro p l hm
    exact absurd hm (List.not_mem_nil _)
  · intro p l o hm _
    exact absurd hm (List.not_mem_nil _)

theorem bookInv_initBook : BookInv initBook := by
  refine ⟨sideInv_nil, sideInv_nil, ?_, ?_, List.Pairwise.nil⟩
  · intro o ho
    rcases ho with ⟨p, l, hm, _⟩ | ⟨p, l, hm, _⟩ <;>
      exact absurd hm (List.not_mem_nil _)
  · intro i p hl
    exact Option.noConfusion hl

theorem sideInv_insert (m : List (Price × List Order)) (o : Order)
    (L : List Order) (hinv : SideInv m)
    (hL : (alist_get m o.price = none ∧ L = [o]) ∨
          (∃ l0, alist_get m o.price = some l0 ∧ L = l0 ++ [o])) :
    SideInv (alist_set m o.price L) ∧
    ∀ x, RestsIn (alist_set m o.price L) x ↔ (RestsIn m x ∨ x = o) := by
  have hmemL : ∀ x ∈ L, x = o ∨ (RestsIn m x ∧ x.price = o.price) := by
    intro x hx
    rcases hL with ⟨hg, rfl⟩ | ⟨l0, hg, rfl⟩
    · rcases List.mem_singleton.mp hx with rfl
      exact Or.inl rfl
    · rcases List.mem_append.mp hx with h1 | h1
      · exact Or.inr ⟨restsIn_of_get hg h1,
          hinv.keyed o.price l0 x (alist_get_mem _ _ _ hg) h1⟩
      · exact Or.inl (List.mem_singleton.mp h1)
  have hoL : o ∈ L := by
    rcases hL with ⟨_, rfl⟩ | ⟨l0, _, rfl⟩
    · exact List.mem_singleton.mpr rfl
    · exact List.mem_append.mpr (Or.inr (List.mem_singleton.mpr rfl))
  refine ⟨⟨?_, ?_, ?_⟩, ?_⟩
  · exact alist_set_keysSorted _ _ _ hinv.sorted
  · intro p l hm
    rcases mem_alist_set_elim hm with ⟨hq, rfl⟩ | hm2
    · rcases hL with ⟨_, rfl⟩ | ⟨l0, _, rfl⟩ <;> simp
    · exact hinv.nonempty p l hm2
  · intro p l x hm hx
    rcases mem_alist_set_elim hm with ⟨rfl, rfl⟩ | hm2
    · rcases hmemL x hx with rfl | ⟨_, hp⟩
      · rfl
      · exact hp
    · exact hinv.keyed p l x hm2 hx
  · intro x
    constructor
    · rintro ⟨p, l, hm, hxl⟩
      rcases mem_alist_set_elim hm with ⟨rfl, rfl⟩ | hm2
      · rcases hmemL x hxl with rfl | ⟨hr, _⟩
        · exact Or.inr rfl
        · exact Or.inl hr
      · exact Or.inl ⟨p, l, hm2, hxl⟩
    · rintro (⟨q, l, hm, hxl⟩ | rfl)
      · by_cases hqp : q = o.price
        · have hg2 : alist_get m o.price = some l := by
            rw [← hqp]
            exact alist_get_of_mem_sorted _ _ _ hinv.sorted hm
          rcases hL with ⟨hg, _⟩ | ⟨l0, hg, hLe⟩
          · rw [hg] at hg2
            cases hg2
          · rw [hg] at hg2
            injection hg2 with e
            subst e
            refine ⟨o.price, L, mem_alist_set_self _ _ _, ?_⟩
            rw [hLe]
            exact List.mem_append.mpr (Or.inl hxl)
        · exact ⟨q, l, mem_alist_set_of_mem hm hqp, hxl⟩
      · exact ⟨x.price, L, mem_alist_set_self _ _ _, hoL⟩

theorem add_rests (st : OrderBook) (m : Message) (st' : OrderBook)
    (hb : SideInv st.bids) (ha : SideInv st.asks)
    (h : add st m = some st') :
    SideInv st'.bids ∧ SideInv st'.asks ∧
    ∃ oid sd p sz,
      pyOrStr m.order_id m.id = some oid ∧ m.side = some sd ∧
      m.price = some p ∧ pyOrQ m.size m.remaining_size = some sz ∧
      ∀ x, Rests st' x ↔ (Rests st x ∨
        x = { id := oid, side := sd, price := p, size := sz }) := by
  unfold add at h
  cases hoid : pyOrStr m.order_id m.id with
  | none => simp [hoid] at h
  | some oid =>
  cases hsd : m.side with
  | none => simp [hoid, hsd] at h
  | some sd =>
  cases hp : m.price with
  | none => simp [hoid, hsd, hp] at h
  | some p =>
  cases hsz : pyOrQ m.size m.remaining_size with
  | none => simp [hoid, hsd, hp, hsz] at h
  | some sz =>
  simp only [hoid, hsd, hp, hsz, Option.bind_eq_bind, Option.some_bind] at h
  by_cases hbuy : sd = "buy"
  · simp only [if_pos hbuy, get_bids] at h
    cases hg : alist_get st.bids p with
    | none =>
      rw [hg] at h
      cases h
      obtain ⟨hSI, hIff⟩ := sideInv_insert st.bids
        { id := oid, side := sd, price := p, size := sz } _ hb
        (Or.inl ⟨hg, rfl⟩)
      refine ⟨hSI, ha, oid, sd, p, sz, rfl, rfl, rfl, rfl, ?_⟩
      intro x
      constructor
      · intro hx
        rcases hx with hx1 | hx1
        · rcases (hIff x).mp hx1 with h1 | h1
          · exact Or.inl (Or.inl h1)
          · exact Or.inr h1
        · exact Or.inl (Or.inr hx1)
      · intro hx
        rcases hx with (h1 | h1) | h1
        · exact Or.inl ((hIff x).mpr (Or.inl h1))
        · exact Or.inr h1
        · exact Or.inl ((hIff x).mpr (Or.inr h1))
    | some l0 =>
      rw [hg] at h
      cases h
      obtain ⟨hSI, hIff⟩ := sideInv_insert st.bids
        { id := oid, side := sd, price := p, size := sz } _ hb
        (Or.inr ⟨l0, hg, rfl⟩)
      refine ⟨hSI, ha, oid, sd, p, sz, rfl, rfl, rfl, rfl, ?_⟩
      intro x
      constructor
      · intro hx
        rcases hx with hx1 | hx1
        · rcases (hIff x).mp hx1 with h1 | h1
          · exact Or.inl (Or.inl h1)
          · exact Or.inr h1
        · exact Or.inl (Or.inr hx1)
      · intro hx
        rcases hx with (h1 | h1) | h1
        · exact Or.inl ((hIff x).mpr (Or.inl h1))
        · exact Or.inr h1
        · exact Or.inl ((hIff x).mpr (Or.inr h1))
  · simp only [if_neg hbuy, get_asks] at h
    cases hg : alist_get st.asks p with
    | none =>
      rw [hg] at h
      cases h
      obtain ⟨hSI, hIff⟩ := sideInv_insert st.asks
        { id := oid, side := sd, price := p, size := sz } _ ha
        (Or.inl ⟨hg, rfl⟩)
      refine ⟨hb, hSI, oid, sd, p, sz, rfl, rfl, rfl, rfl, ?_⟩
      intro x
      constructor
      · intro hx
        rcases hx with hx1 | hx1
        · exact Or.inl (Or.inl hx1)
        · rcases (hIff x).mp hx1 with h1 | h1
          · exact Or.inl (Or.inr h1)
          · exact Or.inr h1
      · intro hx
        rcases hx with (h1 | h1) | h1
        · exact Or.inl h1
        · exact Or.inr ((hIff x).mpr (Or.inl h1))
        · exact Or.inr ((hIff x).mpr (Or.inr h1))
    | some l0 =>
      rw [hg] at h
      cases h
      obtain ⟨hSI, hIff⟩ := sideInv_insert st.asks
        { id := oid, side := sd, price := p, size := sz } _ ha
        (Or.inr ⟨l0, hg, rfl⟩)
      refine ⟨hb, hSI, oid, sd, p, sz, rfl, rfl, rfl, rfl, ?_⟩
      intro x
      constructor
      · intro hx
        rcases hx with hx1 | hx1
        · exact Or.inl (Or.inl hx1)
        · rcases (hIff x).mp hx1 with h1 | h1
          · exact Or.inl (Or.inr h1)
          · exact Or.inr h1
      · intro hx
        rcases hx with (h1 | h1) | h1
        · exact Or.inl h1
        · exact Or.inr ((hIff x).mpr (Or.inl h1))
        · exact Or.inr ((hIff x).mpr (Or.inr h1))

theorem foldlM_add_rests (sd : String) (entries : List (Price × ℚ × OrderId))
    (st' : OrderBook) (st : OrderBook)
    (hb : SideInv st.bids) (ha : SideInv st.asks)
    (hinj : ∀ x y, Rests st x → Rests st y → x.id = y.id → x = y)
    (hnodup : (entries.map (fun e => e.2.2)).Nodup)
    (hdisj : ∀ x, Rests st x → x.id ∉ entries.map (fun e => e.2.2))
    (h : List.foldlM (fun s e => add s (snapEntryMsg sd e)) st entries
      = some st') :
    SideInv st'.bids ∧ SideInv st'.asks ∧
    (∀ x y, Rests st' x → Rests st' y → x.id = y.id → x = y) ∧
    (∀ x, Rests st' x → Rests st x ∨ x.id ∈ entries.map (fun e => e.2.2)) := by
  induction entries generalizing st with
  | nil =>
    have h2 : some st = some st' := h
    injection h2 with e
    subst e
    exact ⟨hb, ha, hinj, fun x hx => Or.inl hx⟩
  | cons e T ih =>
    rw [List.foldlM_cons] at h
    cases hadd : add st (snapEntryMsg sd e) with
    | none =>
      rw [hadd] at h
      simp only [Option.bind_eq_bind, Option.none_bind] at h
      cases h
    | some st1 =>
      rw [hadd] at h
      simp only [Option.bind_eq_bind, Option.some_bind] at h
      obtain ⟨hb1, ha1, oid, sd', p, sz, heid, hesd, hep, hesz, hiff⟩ :=
        add_rests st (snapEntryMsg sd e) st1 hb ha hadd
      have heid2 : some e.2.2 = some oid := heid
      injection heid2 with heq
      subst heq
      simp only [List.map_cons] at hnodup
      obtain ⟨hhead, htail⟩ := List.nodup_cons.mp hnodup
      have hinj1 : ∀ x y, Rests st1 x → Rests st1 y → x.id = y.id → x = y := by
        intro x y hx hy hxy
        rcases (hiff x).mp hx with hx1 | hx2
        · rcases (hiff y).mp hy with hy1 | hy2
          · exact hinj x y hx1 hy1 hxy
          · exfalso
            have hmem := hdisj x hx1
            refine hmem (List.mem_cons.mpr (Or.inl ?_))
            rw [hxy, hy2]
        · rcases (hiff y).mp hy with hy1 | hy2
          · exfalso
            have hmem := hdisj y hy1
            refine hmem (List.mem_cons.mpr (Or.inl ?_))
            rw [← hxy, hx2]
          · rw [hx2, hy2]
      have hdisj1 : ∀ x, Rests st1 x → x.id ∉ T.map (fun e => e.2.2) := by
        intro x hx hmem
        rcases (hiff x).mp hx with hx1 | hx2
        · exact hdisj x hx1 (List.mem_cons.mpr (Or.inr hmem))
        · rw [hx2] at hmem
          exact hhead hmem
      obtain ⟨hbF, haF, hinjF, htrF⟩ := ih st1 hb1 ha1 hinj1 htail hdisj1 h
      refine ⟨hbF, haF, hinjF, ?_⟩
      intro x hx
      rcases htrF x hx with hx1 | hx1
      · rcases (hiff x).mp hx1 with hx2 | hx2
        · exact Or.inl hx2
        · refine Or.inr (List.mem_cons.mpr (Or.inl ?_))
          rw [hx2]
      · exact Or.inr (List.mem_cons.mpr (Or.inr hx1))

theorem pd_fold_stable (L : List Order) (acc : List (OrderId × Price))
    (i : OrderId) (p : Price)
    (hco : ∀ y ∈ L, Order.id y = i → Order.price y = p)
    (hacc : pd_lookup acc i = some p) :
    pd_lookup (L.foldl (fun a o => pd_set a o.id o.price) acc) i = some p := by
  induction L generalizing acc with
  | nil => exact hacc
  | cons z T ih =>
    rw [List.foldl_cons]
    by_cases hzi : z.id = i
    · refine ih _ (fun y hy hyi => hco y (List.mem_cons_of_mem _ hy) hyi) ?_
      rw [hzi, pd_lookup_set_self, hco z (List.mem_cons_self _ _) hzi]
    · refine ih _ (fun y hy hyi => hco y (List.mem_cons_of_mem _ hy) hyi) ?_
      rw [pd_lookup_set_ne acc z.id i z.price (fun hh => hzi hh.symm)]
      exact hacc

theorem pd_fold_mem (L : List Order) (acc : List (OrderId × Price)) (o : Order)
    (ho : o ∈ L)
    (hco : ∀ y ∈ L, Order.id y = Order.id o → Order.price y = Order.price o) :
    pd_lookup (L.foldl (fun a x => pd_set a x.id x.price) acc) o.id
      = some o.price := by
  induction L generalizing acc with
  | nil => exact absurd ho (List.not_mem_nil _)
  | cons z T ih =>
    rw [List.foldl_cons]
    by_cases hoT : o ∈ T
    · exact ih _ hoT (fun y hy => hco y (List.mem_cons_of_mem _ hy))
    · have hoz : o = z := by
        rcases List.mem_cons.mp ho with h1 | h1
        · exact h1
        · exact absurd h1 hoT
      subst hoz
      refine pd_fold_stable T _ o.id o.price
        (fun y hy hyi => hco y (List.mem_cons_of_mem _ hy) hyi) ?_
      rw [pd_lookup_set_self]

theorem pd_fold_src (L : List Order) (acc : List (OrderId × Price))
    (i : OrderId) (p : Price)
    (h : pd_lookup (L.foldl (fun a x => pd_set a x.id x.price) acc) i
      = some p) :
    (∃ o ∈ L, Order.id o = i) ∨ pd_lookup acc i = some p := by
  induction L generalizing acc with
  | nil => exact Or.inr h
  | cons z T ih =>
    rw [List.foldl_cons] at h
    rcases ih _ h with h1 | h1
    · obtain ⟨o, ho, hoi⟩ := h1
      exact Or.inl ⟨o, List.mem_cons_of_mem _ ho, hoi⟩
    · by_cases hzi : i = z.id
      · exact Or.inl ⟨z, List.mem_cons_self _ _, hzi.symm⟩
      · rw [pd_lookup_set_ne acc z.id i z.price hzi] at h1
        exact Or.inr h1

theorem pd_fold_nodup (L : List Order) (acc : List (OrderId × Price))
    (hacc : (acc.map Prod.fst).Nodup) :
    ((L.foldl (fun a x => pd_set a x.id x.price) acc).map Prod.fst).Nodup := by
  induction L generalizing acc with
  | nil => exact hacc
  | cons z T ih =>
    rw [List.foldl_cons]
    exact ih _ (pd_set_nodup _ _ _ hacc)

theorem foldl_levels_pd (m : List (Price × List Order))
    (acc : List (OrderId × Price)) :
    m.foldl (fun a pl => pl.2.foldl (fun a o => pd_set a o.id o.price) a) acc
      = (sideOrders m).foldl (fun a o => pd_set a o.id o.price) acc := by
  induction m generalizing acc with
  | nil => rfl
  | cons hd t ih =>
    rw [List.foldl_cons, ih]
    show _ = ((hd.2 ++ sideOrders t).foldl (fun a o => pd_set a o.id o.price)
      acc)
    rw [List.foldl_append]

theorem populate_pd (b : OrderBook) :
    (populate_price_dict b).price_dict
      = (allOrders b).foldl (fun a o => pd_set a o.id o.price) [] := by
  show b.bids.foldl (fun a pl => pl.2.foldl (fun a o => pd_set a o.id o.price)
      a) (b.asks.foldl (fun a pl => pl.2.foldl (fun a o =>
      pd_set a o.id o.price) a) []) = _
  rw [foldl_levels_pd, foldl_levels_pd]
  simp only [allOrders]
  rw [List.foldl_append]

theorem mem_allOrders {b : OrderBook} {o : Order} :
    o ∈ allOrders b ↔ Rests b o := by
  simp only [allOrders, List.mem_append, mem_sideOrders]
  exact ⟨Or.symm, Or.symm⟩

theorem populate_index (b : OrderBook)
    (hinj : ∀ x y, Rests b x → Rests b y → x.id = y.id → x = y) :
    (∀ o, Rests b o →
      pd_lookup (populate_price_dict b).price_dict o.id = some o.price) ∧
    (∀ i p, pd_lookup (populate_price_dict b).price_dict i = some p →
      ∃ o, Rests b o ∧ Order.id o = i) ∧
    ((populate_price_dict b).price_dict.map Prod.fst).Nodup := by
  rw [populate_pd]
  refine ⟨?_, ?_, ?_⟩
  · intro o ho
    refine pd_fold_mem (allOrders b) [] o (mem_allOrders.mpr ho) ?_
    intro y hy hyi
    rw [hinj y o (mem_allOrders.mp hy) ho hyi]
  · intro i p hl
    rcases pd_fold_src (allOrders b) [] i p hl with h1 | h1
    · obtain ⟨o, ho, hoi⟩ := h1
      exact ⟨o, mem_allOrders.mp ho, hoi⟩
    · exact absurd h1 (by simp [pd_lookup])
  · exact pd_fold_nodup (allOrders b) [] (by simp)

theorem reset_book_inv (snap : Snapshot) (b b' : OrderBook) (hs : SnapOk snap)
    (h : reset_book snap b = some b') : BookInv b' := by
  obtain ⟨hnd, _⟩ := hs
  rw [List.map_append, List.nodup_append] at hnd
  obtain ⟨hndb, hnda, hdisjba⟩ := hnd
  unfold reset_book at h
  cases hf1 : List.foldlM (fun st e => add st (snapEntryMsg "buy" e))
      { b with asks := [], bids := [] } snap.bids with
  | none =>
    rw [hf1] at h
    simp only [Option.bind_eq_bind, Option.none_bind] at h
    cases h
  | some b1 =>
  rw [hf1] at h
  simp only [Option.bind_eq_bind, Option.some_bind] at h
  cases hf2 : List.foldlM (fun st e => add st (snapEntryMsg "sell" e)) b1
      snap.asks with
  | none =>
    rw [hf2] at h
    simp only [Option.bind_eq_bind, Option.none_bind] at h
    cases h
  | some b2 =>
  rw [hf2] at h
  simp only [Option.bind_eq_bind, Option.some_bind] at h
  injection h with hb
  subst hb
  have hnoRest : ∀ x, Rests ({ b with asks := [], bids := [] } : OrderBook) x
      → False := by
    intro x hx
    rcases hx with ⟨p, l, hm, _⟩ | ⟨p, l, hm, _⟩ <;>
      exact absurd hm (List.not_mem_nil _)
  obtain ⟨hb1, ha1, hinj1, htr1⟩ := foldlM_add_rests "buy" snap.bids b1
    { b with asks := [], bids := [] } sideInv_nil sideInv_nil
    (fun x y hx _ _ => (hnoRest x hx).elim)
    hndb (fun x hx => (hnoRest x hx).elim) hf1
  obtain ⟨hb2, ha2, hinj2, _⟩ := foldlM_add_rests "sell" snap.asks b2 b1
    hb1 ha1 hinj1 hnda
    (fun x hx hmem => by
      rcases htr1 x hx with h1 | h1
      · exact (hnoRest x h1).elim
      · exact hdisjba h1 hmem)
    hf2
  have hinj3 : ∀ x y,
      Rests ({ b2 with sequence := snap.sequence } : OrderBook) x →
      Rests ({ b2 with sequence := snap.sequence } : OrderBook) y →
      x.id = y.id → x = y := hinj2
  obtain ⟨hidx, hrest, hnodup⟩ :=
    populate_index { b2 with sequence := snap.sequence } hinj3
  exact ⟨hb2, ha2, hidx, hrest, hnodup⟩

theorem on_message_preserves_inv (snap : Snapshot) (b b' : OrderBook)
    (m : Message) (hinv : BookInv b) (hs : SnapOk snap) (hmo : MsgOk b m)
    (h : on_message snap b m = some b') : BookInv b' := by
  unfold on_message at h
  by_cases h1 : b.sequence = -1
  · rw [if_pos h1] at h
    exact reset_book_inv snap b b' hs h
  · rw [if_neg h1] at h
    by_cases h2 : m.sequence.getD (-1) ≤ b.sequence
    · rw [if_pos h2] at h
      injection h with hb
      subst hb
      exact hinv
    · rw [if_neg h2] at h
      by_cases h3 : m.sequence.getD (-1) > b.sequence + 1
      · rw [if_pos h3] at h
        exact reset_book_inv snap b b' hs h
      · rw [if_neg h3] at h
        cases ht : m.type' with
        | none =>
          rw [ht] at h
          simp only [Option.bind_eq_bind, Option.none_bind] at h
          cases h
        | some t =>
        rw [ht] at h
        simp only [Option.bind_eq_bind, Option.some_bind] at h
        by_cases ht1 : t = "open"
        · rw [if_pos ht1] at h
          cases hd : add b m with
          | none =>
            rw [hd] at h
            simp only [Option.bind_eq_bind, Option.none_bind] at h
            cases h
          | some bd =>
            rw [hd] at h
            simp only [Option.bind_eq_bind, Option.some_bind] at h
            injection h with hb
            subst hb
            have hbd : BookInv bd := by
              refine add_preserves_inv b m bd hinv ?_ hd
              intro i hi x hx
              exact hmo.1 (ht1 ▸ ht) i hi x hx
            exact ⟨hbd.bids_inv, hbd.asks_inv, hbd.idx_of_rest,
              hbd.rest_of_idx, hbd.pd_nodup⟩
        · rw [if_neg ht1] at h
          by_cases ht2 : t = "done" ∧ m.price.isSome
          · rw [if_pos ht2] at h
            cases hd : remove b m with
            | none =>
              rw [hd] at h
              simp only [Option.map_none', Option.bind_eq_bind,
                Option.none_bind] at h
              cases h
            | some pr =>
              obtain ⟨bd, fnd⟩ := pr
              rw [hd] at h
              simp only [Option.map_some', Option.bind_eq_bind,
                Option.some_bind] at h
              injection h with hb
              subst hb
              cases hoid : m.order_id with
              | none =>
                exfalso
                unfold remove at hd
                rw [hoid] at hd
                simp only [Option.bind_eq_bind, Option.none_bind] at hd
                cases hd
              | some oid =>
                have hside : ∀ sd, m.side = some sd → sideOk b sd oid := by
                  intro sd hsd
                  exact hmo.2.1 (ht2.1 ▸ ht) sd oid hsd hoid
                obtain ⟨hbd, _⟩ :=
                  remove_preserves_inv b bd m fnd oid hinv hoid hside hd
                exact ⟨hbd.bids_inv, hbd.asks_inv, hbd.idx_of_rest,
                  hbd.rest_of_idx, hbd.pd_nodup⟩
          · rw [if_neg ht2] at h
            by_cases ht3 : t = "match"
            · rw [if_pos ht3] at h
              cases hd : match_event b m with
              | none =>
                rw [hd] at h
                simp only [Option.map_none', Option.bind_eq_bind,
                  Option.none_bind] at h
                cases h
              | some bx =>
                rw [hd] at h
                simp only [Option.map_some', Option.bind_eq_bind,
                  Option.some_bind] at h
                injection h with hb
                subst hb
                have hbx := match_preserves_inv b bx m hinv hd
                exact ⟨hbx.bids_inv, hbx.asks_inv, hbx.idx_of_rest,
                  hbx.rest_of_idx, hbx.pd_nodup⟩
            · rw [if_neg ht3] at h
              by_cases ht4 : t = "change"
              · rw [if_pos ht4] at h
                cases hd : change b m with
                | none =>
                  rw [hd] at h
                  simp only [Option.bind_eq_bind, Option.none_bind] at h
                  cases h
                | some bd =>
                  rw [hd] at h
                  simp only [Option.bind_eq_bind, Option.some_bind] at h
                  injection h with hb
                  subst hb
                  have hbd := change_preserves_inv b bd m hinv
                    (fun sd i hsd hoid => hmo.2.2 (ht4 ▸ ht) sd i hsd hoid) hd
                  exact ⟨hbd.bids_inv, hbd.asks_inv, hbd.idx_of_rest,
                    hbd.rest_of_idx, hbd.pd_nodup⟩
              · rw [if_neg ht4] at h
                injection h with hb
                subst hb
                exact ⟨hinv.bids_inv, hinv.asks_inv, hinv.idx_of_rest,
                  hinv.rest_of_idx, hinv.pd_nodup⟩

theorem reachable_inv (b : OrderBook) (h : Reachable b) : BookInv b := by
  induction h with
  | init => exact bookInv_initBook
  | snapshot hr hsn hrb ih => exact reset_book_inv _ _ _ hsn hrb
  | step hr hsn hmok hom ih =>
    exact on_message_preserves_inv _ _ _ _ ih hsn hmok hom

/-- C1 (amended). Index consistency invariant: in every state reachable from
a fresh book by well-formed snapshot loads (pairwise-distinct order ids,
nonzero sizes) and accepted events that are well formed for the state they
hit (an `open` id is fresh; `done` and `change` name the side their order
rests on), an order id is present in `price_dict` iff an order with that id
rests in some price level, and the indexed price equals each such resting
order's stored price. -/
theorem c1_index_consistency (b : OrderBook) (h : Reachable b) :
    (∀ i : OrderId, (∃ p, pd_lookup b.price_dict i = some p) ↔
      ∃ o, Rests b o ∧ Order.id o = i) ∧
    (∀ o, Rests b o → pd_lookup b.price_dict o.id = some o.price) := by
  have hinv := reachable_inv b h
  refine ⟨?_, hinv.idx_of_rest⟩
  intro i
  constructor
  · rintro ⟨p, hp⟩
    exact hinv.rest_of_idx i p hp
  · rintro ⟨o, ho, rfl⟩
    exact ⟨o.price, hinv.idx_of_rest o ho⟩

/-- C1 witness: the invariant, evaluated on the book a well-formed one-bid
snapshot load builds from a fresh instance. -/
theorem c1_index_consistency_witness :
    ((∃ p, pd_lookup bkS.price_dict "S" = some p) ↔
      ∃ o, Rests bkS o ∧ Order.id o = "S") ∧
    pd_lookup bkS.price_dict
      (Order.id { id := "S", side := "buy", price := 50, size := 2 }) =
      some (Order.price { id := "S", side := "buy", price := 50, size := 2 }) :=
  ⟨(c1_index_consistency bkS
      (@Reachable.snapshot initBook bkS snapB Reachable.init
        (by unfold SnapOk; decide) (by decide))).1 "S",
   (c1_index_consistency bkS
      (@Reachable.snapshot initBook bkS snapB Reachable.init
        (by unfold SnapOk; decide) (by decide))).2
      { id := "S", side := "buy", price := 50, size := 2 }
      (Or.inl ⟨50, [{ id := "S", side := "buy", price := 50, size := 2 }],
        by decide, by decide⟩)⟩
